import Mathlib

/-!
Verification of the tessa4d core (4D geometric algebra and simplicial mesh
library) against its specification.

The development is a shallow embedding of the Rust sources:

* the mesh model and its operations (`src/tessa4d/src/mesh/mod.rs`,
  `mesh/ops/cross_section.rs`, `mesh/ops/extrude.rs`, `mesh/ops/project.rs`)
  are embedded over exact rationals, with the caller-supplied vertex type kept
  generic exactly as the Rust code is generic over `ProjectOrthographic`
  and `InterpolateWith`;
* the rotor/bivector algebra (`src/tessa4d/src/transform/rotor4.rs`,
  `transform/rotate_scale_translate4.rs`) is embedded over the reals, with
  `f32` idealized as exact real arithmetic.
-/

namespace Tessa4d

/-! ## Rational mesh embedding: data model (mesh/mod.rs) -/

/-- Embeds `util::lerp`: `a * (1.0 - t) + b * t`. -/
def lerp (a b t : ℚ) : ℚ := a * (1 - t) + b * t

/-- A 2D vertex position (`Vertex2` over a glam-style `Vec2`), as a pair of
rationals. -/
abbrev Vertex2Q := ℚ × ℚ

/-- A 3D vertex position (`Vertex3` over a glam-style `Vec3`), as a triple of
rationals. -/
abbrev Vertex3Q := ℚ × ℚ × ℚ

/-- Embeds `InterpolateWith for Vertex2`: componentwise `lerp` of the two
positions. -/
def interpolate2 (a b : Vertex2Q) (t : ℚ) : Vertex2Q :=
  (lerp a.1 b.1 t, lerp a.2 b.2 t)

/-- A triangle simplex: three indices into the vertex list (`[usize; 3]`). -/
abbrev Tri := ℕ × ℕ × ℕ

/-- A tetrahedron simplex: four indices into the vertex list (`[usize; 4]`). -/
abbrev Tet := ℕ × ℕ × ℕ × ℕ

/-- Embeds `SimplexMesh<V, 3>` (`TriangleMesh<V>`): a vertex list plus a list
of index triples. -/
structure TriangleMesh (V : Type) where
  vertices : List V
  simplexes : List Tri
deriving DecidableEq

/-- Embeds `SimplexMesh<V, 4>` (`TetrahedronMesh<V>`): a vertex list plus a
list of index quadruples. -/
structure TetrahedronMesh (V : Type) where
  vertices : List V
  simplexes : List Tet
deriving DecidableEq

/-- Position `i` of a `[usize; 4]` simplex (out-of-range positions are never
used by the embedded code; they default to `0`). -/
def tetGet (t : Tet) : ℕ → ℕ
  | 0 => t.1
  | 1 => t.2.1
  | 2 => t.2.2.1
  | _ => t.2.2.2

/-- Map a function over the three entries of a triple (`<[T; 3]>::map`). -/
def triMap (f : α → β) (t : α × α × α) : β × β × β :=
  (f t.1, f t.2.1, f t.2.2)

/-- Reverse a triple (`<[T; 3]>::reverse`). -/
def triReverse (t : α × α × α) : α × α × α :=
  (t.2.2, t.2.1, t.1)

/-! ## Mesh operations generic over the simplex rank (mesh/mod.rs) -/

/-- Embeds `SimplexMesh::apply_transform` at rank 4: every vertex is mapped
through the transform (kept abstract as a function), simplexes unchanged. -/
def TetrahedronMesh.applyTransform (f : V → V) (m : TetrahedronMesh V) :
    TetrahedronMesh V :=
  { vertices := m.vertices.map f, simplexes := m.simplexes }

/-- Embeds `SimplexMesh::invert` at rank 4 (N = 4 ≥ 2, so the `N < 2` early
return is not taken): the first two indices of every simplex are swapped. -/
def TetrahedronMesh.invert (m : TetrahedronMesh V) : TetrahedronMesh V :=
  { vertices := m.vertices,
    simplexes := m.simplexes.map fun t => (t.2.1, t.1, t.2.2.1, t.2.2.2) }

/-- Embeds `SimplexMesh::join` at rank 4: vertex lists are concatenated and
the second mesh's indices are offset by the first mesh's vertex count. -/
def TetrahedronMesh.join (m o : TetrahedronMesh V) : TetrahedronMesh V :=
  { vertices := m.vertices ++ o.vertices,
    simplexes := m.simplexes ++ o.simplexes.map fun t =>
      (t.1 + m.vertices.length, t.2.1 + m.vertices.length,
        t.2.2.1 + m.vertices.length, t.2.2.2 + m.vertices.length) }

/-- Embeds `SimplexMesh::invert` at rank 3. -/
def TriangleMesh.invert (m : TriangleMesh V) : TriangleMesh V :=
  { vertices := m.vertices,
    simplexes := m.simplexes.map fun t => (t.2.1, t.1, t.2.2) }

/-- Embeds `SimplexMesh::join` at rank 3. -/
def TriangleMesh.join (m o : TriangleMesh V) : TriangleMesh V :=
  { vertices := m.vertices ++ o.vertices,
    simplexes := m.simplexes ++ o.simplexes.map fun t =>
      (t.1 + m.vertices.length, t.2.1 + m.vertices.length,
        t.2.2 + m.vertices.length) }

/-! ## Extrude (mesh/ops/extrude.rs) -/

/-- Embeds `Extrude for TriangleMesh<V>`. The caller-supplied
`LiftOrthographic` implementation is the parameter `lift`
(`lift v depth` adds `depth` as the new coordinate of `v`). -/
def extrude (lift : V → ℚ → W) (m : TriangleMesh V) (height : ℚ) :
    TetrahedronMesh W :=
  let newDimension := height / 2
  let numVerts := m.vertices.length
  let upperVerts := m.vertices.map fun v => lift v (-newDimension)
  let lowerVerts := m.vertices.map fun v => lift v newDimension
  { vertices := lowerVerts ++ upperVerts,
    simplexes := m.simplexes.flatMap fun face =>
      [(face.1, face.2.2, face.2.1, face.1 + numVerts),
        (face.2.2, face.2.1, face.1 + numVerts, face.2.2 + numVerts),
        (face.1 + numVerts, face.2.1 + numVerts, face.2.2 + numVerts,
          face.2.1)] }

/-- Embeds `LiftOrthographic for Vertex2`: append the depth as the new `z`
coordinate. -/
def lift2 (v : Vertex2Q) (depth : ℚ) : Vertex3Q := (v.1, v.2, depth)

/-! ## Cross-section (mesh/ops/cross_section.rs) -/

/-- The caller-supplied `ProjectOrthographic`/`InterpolateWith`
implementations that `cross_section` is generic over. For the 3D instance
(`Vertex3 → Vertex2`) these are instantiated at `projOps3` below. -/
structure ProjOps (V P : Type) where
  orthographicDepth : V → ℚ
  projectOrthographic : V → P
  interpolateWith : P → P → ℚ → P

/-- Embeds `ProjectOrthographic for Vertex3` and
`InterpolateWith for Vertex2`: depth is the `z` coordinate, projection drops
it, interpolation is componentwise `lerp`. -/
def projOps3 : ProjOps Vertex3Q Vertex2Q :=
  { orthographicDepth := fun v => v.2.2
    projectOrthographic := fun v => (v.1, v.2.1)
    interpolateWith := interpolate2 }

/-- Embeds `project_edge`: interpolate the two projected endpoints at the
fraction `depth1 / (depth1 - depth2)`. -/
def projectEdge (ops : ProjOps V P) (vertex1 vertex2 : V) : P :=
  let depth1 := ops.orthographicDepth vertex1
  let depth2 := ops.orthographicDepth vertex2
  let intersection := depth1 / (depth1 - depth2)
  ops.interpolateWith (ops.projectOrthographic vertex1)
    (ops.projectOrthographic vertex2) intersection

/-- Embeds the constant `TETRAHEDRON_FACE_WINDING`:
`[[1, 3, 2], [0, 2, 3], [0, 3, 1], [0, 1, 2]]`, the face opposite vertex `i`
in clockwise winding as viewed from vertex `i`. -/
def TETRAHEDRON_FACE_WINDING : ℕ → ℕ × ℕ × ℕ
  | 0 => (1, 3, 2)
  | 1 => (0, 2, 3)
  | 2 => (0, 3, 1)
  | _ => (0, 1, 2)

/-- Embeds the `one_negative_case` closure: one face, in face-winding order,
each edge running from the lone vertex `i` to a face vertex. -/
def oneNegativeCase (i : ℕ) : List ((ℕ × ℕ) × (ℕ × ℕ) × (ℕ × ℕ)) :=
  [triMap (fun j => (i, j)) (TETRAHEDRON_FACE_WINDING i)]

/-- Embeds the `three_negative_case` closure: like `oneNegativeCase` but with
the face winding reversed. -/
def threeNegativeCase (i : ℕ) : List ((ℕ × ℕ) × (ℕ × ℕ) × (ℕ × ℕ)) :=
  [triMap (fun j => (i, j)) (triReverse (TETRAHEDRON_FACE_WINDING i))]

/-- Embeds the `two_negative_case` closure: the quadrilateral intersection as
two triangles with the fixed pattern from the source. -/
def twoNegativeCase (n1 n2 p1 p2 : ℕ) :
    List ((ℕ × ℕ) × (ℕ × ℕ) × (ℕ × ℕ)) :=
  [((n1, p2), (n1, p1), (n2, p2)), ((n1, p1), (n2, p1), (n2, p2))]

/-- Embeds the `match vertex_section_side` dispatch of `cross_section`: maps
the four per-vertex side booleans (`depth > 0`) to the list of faces to emit,
each face a triple of tetrahedron-local edges. -/
def caseFaces : Bool × Bool × Bool × Bool → List ((ℕ × ℕ) × (ℕ × ℕ) × (ℕ × ℕ))
  | (false, false, false, false) => []
  | (true, true, true, true) => []
  | (false, true, true, true) => oneNegativeCase 0
  | (true, false, true, true) => oneNegativeCase 1
  | (true, true, false, true) => oneNegativeCase 2
  | (true, true, true, false) => oneNegativeCase 3
  | (true, false, false, false) => threeNegativeCase 0
  | (false, true, false, false) => threeNegativeCase 1
  | (false, false, true, false) => threeNegativeCase 2
  | (false, false, false, true) => threeNegativeCase 3
  | (false, false, true, true) => twoNegativeCase 0 1 2 3
  | (true, true, false, false) => twoNegativeCase 3 2 1 0
  | (true, false, true, false) => twoNegativeCase 3 1 0 2
  | (false, true, false, true) => twoNegativeCase 0 2 3 1
  | (true, false, false, true) => twoNegativeCase 2 1 3 0
  | (false, true, true, false) => twoNegativeCase 0 3 1 2

/-- The local mutable state of one `cross_section` call: the edge
memoization map (`HashMap<(usize, usize), usize>`, as an association list)
and the output vertex list being built. -/
structure CrossSectionState (P : Type) where
  edgeIndices : List ((ℕ × ℕ) × ℕ)
  projectedVertices : List P

/-- Association-list lookup standing in for `HashMap::entry` probing. -/
def lookupEdge (key : ℕ × ℕ) : List ((ℕ × ℕ) × ℕ) → Option ℕ
  | [] => none
  | kv :: rest => if kv.1 = key then some kv.2 else lookupEdge key rest

/-- Embeds the `get_intersection` closure: memoized on the unordered index
pair; on a miss, projects the edge, appends the new vertex and records its
index (the length of the vertex list before the push). -/
def getIntersection [Inhabited V] (ops : ProjOps V P) (vertices : List V)
    (s : CrossSectionState P) (i j : ℕ) : CrossSectionState P × ℕ :=
  let key := (min i j, max i j)
  match lookupEdge key s.edgeIndices with
  | some projectedIndex => (s, projectedIndex)
  | none =>
    let vertex1 := vertices.getD i default
    let vertex2 := vertices.getD j default
    let projectedVertex := projectEdge ops vertex1 vertex2
    let index := s.projectedVertices.length
    ({ edgeIndices := (key, index) :: s.edgeIndices,
       projectedVertices := s.projectedVertices ++ [projectedVertex] }, index)

/-- Emit one output triangle from a face (three tetrahedron-local edges),
threading the memoization state left to right as the Rust array `map` does. -/
def emitFace [Inhabited V] (ops : ProjOps V P) (vertices : List V)
    (simplex : Tet) (s : CrossSectionState P)
    (face : (ℕ × ℕ) × (ℕ × ℕ) × (ℕ × ℕ)) : CrossSectionState P × Tri :=
  let e1 := face.1
  let e2 := face.2.1
  let e3 := face.2.2
  let r1 := getIntersection ops vertices s (tetGet simplex e1.1) (tetGet simplex e1.2)
  let r2 := getIntersection ops vertices r1.1 (tetGet simplex e2.1) (tetGet simplex e2.2)
  let r3 := getIntersection ops vertices r2.1 (tetGet simplex e3.1) (tetGet simplex e3.2)
  (r3.1, (r1.2, r2.2, r3.2))

/-- Emit the triangles of one simplex's face list in order. -/
def emitFaces [Inhabited V] (ops : ProjOps V P) (vertices : List V)
    (simplex : Tet) (s : CrossSectionState P) :
    List ((ℕ × ℕ) × (ℕ × ℕ) × (ℕ × ℕ)) → CrossSectionState P × List Tri
  | [] => (s, [])
  | face :: rest =>
    let r := emitFace ops vertices simplex s face
    let rr := emitFaces ops vertices simplex r.1 rest
    (rr.1, r.2 :: rr.2)

/-- Process one tetrahedron: classify its four vertices by sign of depth
(`> CROSS_SECTION_DEPTH`, the depth constant being `0.0`), dispatch on the
sign pattern and emit the resulting faces. -/
def processSimplex [Inhabited V] (ops : ProjOps V P) (vertices : List V)
    (s : CrossSectionState P) (simplex : Tet) :
    CrossSectionState P × List Tri :=
  let side := fun i : ℕ =>
    decide (0 < ops.orthographicDepth (vertices.getD (tetGet simplex i) default))
  emitFaces ops vertices simplex s (caseFaces (side 0, side 1, side 2, side 3))

/-- Process the simplex list in order (`flat_map`), concatenating the
emitted triangles. -/
def processSimplexes [Inhabited V] (ops : ProjOps V P) (vertices : List V)
    (s : CrossSectionState P) : List Tet → CrossSectionState P × List Tri
  | [] => (s, [])
  | simplex :: rest =>
    let r := processSimplex ops vertices s simplex
    let rr := processSimplexes ops vertices r.1 rest
    (rr.1, r.2 ++ rr.2)

/-- Embeds `CrossSection for TetrahedronMesh<V>`: slice the mesh at the
hyperplane where the depth coordinate is zero, producing a triangle mesh one
dimension lower. -/
def crossSection [Inhabited V] (ops : ProjOps V P) (m : TetrahedronMesh V) :
    TriangleMesh P :=
  let r := processSimplexes ops m.vertices ⟨[], []⟩ m.simplexes
  { vertices := r.1.projectedVertices, simplexes := r.2 }

end Tessa4d

namespace Tessa4d

/-! ## Handedness (mesh/mod.rs test_util: triangle_sign, tetrahedron_sign) -/

/-- Embeds `f32::signum` on exact rationals (where there is no negative zero
and no NaN): `1` for nonnegative values, `-1` for negative ones. -/
def signum (x : ℚ) : ℚ := if 0 ≤ x then 1 else -1

/-- Componentwise subtraction of 2D vectors. -/
def sub2 (a b : Vertex2Q) : Vertex2Q := (a.1 - b.1, a.2 - b.2)

/-- Embeds `glam::Vec2::perp_dot`. -/
def perpDot (u v : Vertex2Q) : ℚ := u.1 * v.2 - u.2 * v.1

/-- Componentwise subtraction of 3D vectors. -/
def sub3 (a b : Vertex3Q) : Vertex3Q :=
  (a.1 - b.1, a.2.1 - b.2.1, a.2.2 - b.2.2)

/-- Embeds `glam::Vec3::cross`. -/
def cross3 (u v : Vertex3Q) : Vertex3Q :=
  (u.2.1 * v.2.2 - u.2.2 * v.2.1, u.2.2 * v.1 - u.1 * v.2.2,
    u.1 * v.2.1 - u.2.1 * v.1)

/-- Embeds `glam::Vec3::dot`. -/
def dot3 (u v : Vertex3Q) : ℚ :=
  u.1 * v.1 + u.2.1 * v.2.1 + u.2.2 * v.2.2

/-- Embeds `triangle_sign` from the mesh test utilities: the handedness of a
2D triangle, `(s0 - s1).perp_dot(s2 - s1).signum()`. -/
def triangleSign (a b c : Vertex2Q) : ℚ := signum (perpDot (sub2 a b) (sub2 c b))

/-- Embeds `tetrahedron_sign` from the mesh test utilities: the handedness of
a 3D tetrahedron, `(s1 - s0).cross(s2 - s0).dot(s3 - s0).signum()`. -/
def tetrahedronSign (a b c d : Vertex3Q) : ℚ :=
  signum (dot3 (cross3 (sub3 b a) (sub3 c a)) (sub3 d a))

/-- The sign of a rational is unchanged by scaling with the positive
constant 8. -/
theorem signum_eq_of_eight_mul (x y : ℚ) (h : 8 * y = x) : signum y = signum x := by
  subst h
  unfold signum
  rcases le_or_lt 0 y with hy | hy
  · rw [if_pos hy, if_pos (by linarith)]
  · rw [if_neg (by linarith), if_neg (by linarith)]

/-! ## Claim C1 -/

/-- A single-tetrahedron 3D mesh whose vertex 0 sits at depth `+1` and whose
other three vertices sit at depth `-1`, with an arbitrary simplex winding
`t`. -/
def c1Mesh (p1 p2 a1 a2 b1 b2 c1 c2 : ℚ) (t : Tet) : TetrahedronMesh Vertex3Q :=
  ⟨[(p1, p2, 1), (a1, a2, -1), (b1, b2, -1), (c1, c2, -1)], [t]⟩

/-- The eight windings of the (+1, -1, -1, -1) tetrahedron: the positive
vertex in each of the four simplex slots, with both windings of the
remaining three vertices (these are the eight sub-cases exercised by the
repository's `one_three_split_tests`). -/
def c1Windings : List Tet :=
  [(0, 1, 2, 3), (0, 1, 3, 2), (2, 0, 1, 3), (2, 0, 3, 1),
   (1, 2, 0, 3), (2, 1, 0, 3), (1, 3, 2, 0), (3, 1, 2, 0)]

/-- C1: for every non-degenerate single-tetrahedron mesh whose vertices have
depths (+1, -1, -1, -1) (one positive vertex), `cross_section` emits exactly
one triangle whose handedness equals the handedness of the source
tetrahedron, in all 8 sub-cases (4 choices of the positive slot times both
windings of the remaining vertices). -/
theorem c1_cross_section_one_positive_preserves_handedness
    (p1 p2 a1 a2 b1 b2 c1 c2 : ℚ)
    (hnd : tetrahedronSign (p1, p2, 1) (a1, a2, -1) (b1, b2, -1) (c1, c2, -1) ≠ 0) :
    ∀ t ∈ c1Windings,
      (crossSection projOps3 (c1Mesh p1 p2 a1 a2 b1 b2 c1 c2 t)).simplexes.length = 1 ∧
      ∀ tri ∈ (crossSection projOps3 (c1Mesh p1 p2 a1 a2 b1 b2 c1 c2 t)).simplexes,
        triangleSign
          ((crossSection projOps3 (c1Mesh p1 p2 a1 a2 b1 b2 c1 c2 t)).vertices.getD tri.1 (0, 0))
          ((crossSection projOps3 (c1Mesh p1 p2 a1 a2 b1 b2 c1 c2 t)).vertices.getD tri.2.1 (0, 0))
          ((crossSection projOps3 (c1Mesh p1 p2 a1 a2 b1 b2 c1 c2 t)).vertices.getD tri.2.2 (0, 0)) =
        tetrahedronSign
          ((c1Mesh p1 p2 a1 a2 b1 b2 c1 c2 t).vertices.getD (tetGet t 0) (0, 0, 0))
          ((c1Mesh p1 p2 a1 a2 b1 b2 c1 c2 t).vertices.getD (tetGet t 1) (0, 0, 0))
          ((c1Mesh p1 p2 a1 a2 b1 b2 c1 c2 t).vertices.getD (tetGet t 2) (0, 0, 0))
          ((c1Mesh p1 p2 a1 a2 b1 b2 c1 c2 t).vertices.getD (tetGet t 3) (0, 0, 0)) := by
  intro t ht
  fin_cases ht
  · refine ⟨rfl, ?_⟩
    intro tri htri
    have htri2 : tri ∈ [((0 : ℕ), (1 : ℕ), (2 : ℕ))] := htri
    rcases List.mem_singleton.mp htri2 with rfl
    show triangleSign
        (projectEdge projOps3 (p1, p2, 1) (b1, b2, -1))
        (projectEdge projOps3 (p1, p2, 1) (c1, c2, -1))
        (projectEdge projOps3 (p1, p2, 1) (a1, a2, -1)) =
      tetrahedronSign (p1, p2, 1) (a1, a2, -1) (b1, b2, -1) (c1, c2, -1)
    unfold triangleSign tetrahedronSign
    apply signum_eq_of_eight_mul
    simp only [projectEdge, projOps3, interpolate2, lerp, perpDot, sub2, sub3,
      cross3, dot3]
    ring
  · refine ⟨rfl, ?_⟩
    intro tri htri
    have htri2 : tri ∈ [((0 : ℕ), (1 : ℕ), (2 : ℕ))] := htri
    rcases List.mem_singleton.mp htri2 with rfl
    show triangleSign
        (projectEdge projOps3 (p1, p2, 1) (c1, c2, -1))
        (projectEdge projOps3 (p1, p2, 1) (b1, b2, -1))
        (projectEdge projOps3 (p1, p2, 1) (a1, a2, -1)) =
      tetrahedronSign (p1, p2, 1) (a1, a2, -1) (c1, c2, -1) (b1, b2, -1)
    unfold triangleSign tetrahedronSign
    apply signum_eq_of_eight_mul
    simp only [projectEdge, projOps3, interpolate2, lerp, perpDot, sub2, sub3,
      cross3, dot3]
    ring
  · refine ⟨rfl, ?_⟩
    intro tri htri
    have htri2 : tri ∈ [((0 : ℕ), (1 : ℕ), (2 : ℕ))] := htri
    rcases List.mem_singleton.mp htri2 with rfl
    show triangleSign
        (projectEdge projOps3 (p1, p2, 1) (c1, c2, -1))
        (projectEdge projOps3 (p1, p2, 1) (a1, a2, -1))
        (projectEdge projOps3 (p1, p2, 1) (b1, b2, -1)) =
      tetrahedronSign (b1, b2, -1) (p1, p2, 1) (a1, a2, -1) (c1, c2, -1)
    unfold triangleSign tetrahedronSign
    apply signum_eq_of_eight_mul
    simp only [projectEdge, projOps3, interpolate2, lerp, perpDot, sub2, sub3,
      cross3, dot3]
    ring
  · refine ⟨rfl, ?_⟩
    intro tri htri
    have htri2 : tri ∈ [((0 : ℕ), (1 : ℕ), (2 : ℕ))] := htri
    rcases List.mem_singleton.mp htri2 with rfl
    show triangleSign
        (projectEdge projOps3 (p1, p2, 1) (a1, a2, -1))
        (projectEdge projOps3 (p1, p2, 1) (c1, c2, -1))
        (projectEdge projOps3 (p1, p2, 1) (b1, b2, -1)) =
      tetrahedronSign (b1, b2, -1) (p1, p2, 1) (c1, c2, -1) (a1, a2, -1)
    unfold triangleSign tetrahedronSign
    apply signum_eq_of_eight_mul
    simp only [projectEdge, projOps3, interpolate2, lerp, perpDot, sub2, sub3,
      cross3, dot3]
    ring
  · refine ⟨rfl, ?_⟩
    intro tri htri
    have htri2 : tri ∈ [((0 : ℕ), (1 : ℕ), (2 : ℕ))] := htri
    rcases List.mem_singleton.mp htri2 with rfl
    show triangleSign
        (projectEdge projOps3 (p1, p2, 1) (b1, b2, -1))
        (projectEdge projOps3 (p1, p2, 1) (c1, c2, -1))
        (projectEdge projOps3 (p1, p2, 1) (a1, a2, -1)) =
      tetrahedronSign (a1, a2, -1) (b1, b2, -1) (p1, p2, 1) (c1, c2, -1)
    unfold triangleSign tetrahedronSign
    apply signum_eq_of_eight_mul
    simp only [projectEdge, projOps3, interpolate2, lerp, perpDot, sub2, sub3,
      cross3, dot3]
    ring
  · refine ⟨rfl, ?_⟩
    intro tri htri
    have htri2 : tri ∈ [((0 : ℕ), (1 : ℕ), (2 : ℕ))] := htri
    rcases List.mem_singleton.mp htri2 with rfl
    show triangleSign
        (projectEdge projOps3 (p1, p2, 1) (a1, a2, -1))
        (projectEdge projOps3 (p1, p2, 1) (c1, c2, -1))
        (projectEdge projOps3 (p1, p2, 1) (b1, b2, -1)) =
      tetrahedronSign (b1, b2, -1) (a1, a2, -1) (p1, p2, 1) (c1, c2, -1)
    unfold triangleSign tetrahedronSign
    apply signum_eq_of_eight_mul
    simp only [projectEdge, projOps3, interpolate2, lerp, perpDot, sub2, sub3,
      cross3, dot3]
    ring
  · refine ⟨rfl, ?_⟩
    intro tri htri
    have htri2 : tri ∈ [((0 : ℕ), (1 : ℕ), (2 : ℕ))] := htri
    rcases List.mem_singleton.mp htri2 with rfl
    show triangleSign
        (projectEdge projOps3 (p1, p2, 1) (b1, b2, -1))
        (projectEdge projOps3 (p1, p2, 1) (c1, c2, -1))
        (projectEdge projOps3 (p1, p2, 1) (a1, a2, -1)) =
      tetrahedronSign (a1, a2, -1) (c1, c2, -1) (b1, b2, -1) (p1, p2, 1)
    unfold triangleSign tetrahedronSign
    apply signum_eq_of_eight_mul
    simp only [projectEdge, projOps3, interpolate2, lerp, perpDot, sub2, sub3,
      cross3, dot3]
    ring
  · refine ⟨rfl, ?_⟩
    intro tri htri
    have htri2 : tri ∈ [((0 : ℕ), (1 : ℕ), (2 : ℕ))] := htri
    rcases List.mem_singleton.mp htri2 with rfl
    show triangleSign
        (projectEdge projOps3 (p1, p2, 1) (b1, b2, -1))
        (projectEdge projOps3 (p1, p2, 1) (a1, a2, -1))
        (projectEdge projOps3 (p1, p2, 1) (c1, c2, -1)) =
      tetrahedronSign (c1, c2, -1) (a1, a2, -1) (b1, b2, -1) (p1, p2, 1)
    unfold triangleSign tetrahedronSign
    apply signum_eq_of_eight_mul
    simp only [projectEdge, projOps3, interpolate2, lerp, perpDot, sub2, sub3,
      cross3, dot3]
    ring

/-- Witness for C1 at the concrete tetrahedron used by the repository's
tests: vertices (0,0,1), (2,0,-1), (0,0,-1), (0,2,-1) with winding
(0, 1, 2, 3). -/
theorem c1_witness :
    (crossSection projOps3 (c1Mesh 0 0 2 0 0 0 0 2 (0, 1, 2, 3))).simplexes.length = 1 ∧
    ∀ tri ∈ (crossSection projOps3 (c1Mesh 0 0 2 0 0 0 0 2 (0, 1, 2, 3))).simplexes,
      triangleSign
        ((crossSection projOps3 (c1Mesh 0 0 2 0 0 0 0 2 (0, 1, 2, 3))).vertices.getD tri.1 (0, 0))
        ((crossSection projOps3 (c1Mesh 0 0 2 0 0 0 0 2 (0, 1, 2, 3))).vertices.getD tri.2.1 (0, 0))
        ((crossSection projOps3 (c1Mesh 0 0 2 0 0 0 0 2 (0, 1, 2, 3))).vertices.getD tri.2.2 (0, 0)) =
      tetrahedronSign
        ((c1Mesh 0 0 2 0 0 0 0 2 (0, 1, 2, 3)).vertices.getD (tetGet (0, 1, 2, 3) 0) (0, 0, 0))
        ((c1Mesh 0 0 2 0 0 0 0 2 (0, 1, 2, 3)).vertices.getD (tetGet (0, 1, 2, 3) 1) (0, 0, 0))
        ((c1Mesh 0 0 2 0 0 0 0 2 (0, 1, 2, 3)).vertices.getD (tetGet (0, 1, 2, 3) 2) (0, 0, 0))
        ((c1Mesh 0 0 2 0 0 0 0 2 (0, 1, 2, 3)).vertices.getD (tetGet (0, 1, 2, 3) 3) (0, 0, 0)) :=
  c1_cross_section_one_positive_preserves_handedness 0 0 2 0 0 0 0 2
    (by norm_num [tetrahedronSign, dot3, cross3, sub3, signum])
    (0, 1, 2, 3) (by decide)

end Tessa4d

namespace Tessa4d

/-! ## Claim C3 -/

/-- The per-vertex classification of `cross_section`:
`vertices[i].orthographic_depth() > CROSS_SECTION_DEPTH` as a boolean. -/
def sideOf (ops : ProjOps V P) (v : V) : Bool :=
  decide (0 < ops.orthographicDepth v)

/-- Number of `true` entries in a 4-tuple of booleans (used to state "exactly
two vertices on the positive side"). -/
def countTrue (s : Bool × Bool × Bool × Bool) : ℕ :=
  (cond s.1 1 0) + (cond s.2.1 1 0) + (cond s.2.2.1 1 0) + (cond s.2.2.2 1 0)

/-- The fixed role assignment (neg1, neg2, pos1, pos2) that the
`match vertex_section_side` arms of `cross_section` pass to
`two_negative_case` for each of the six two-positive sign patterns
(all other patterns are irrelevant and map to a junk value). -/
def twoNegativeTable : Bool × Bool × Bool × Bool → ℕ × ℕ × ℕ × ℕ
  | (false, false, true, true) => (0, 1, 2, 3)
  | (true, true, false, false) => (3, 2, 1, 0)
  | (true, false, true, false) => (3, 1, 0, 2)
  | (false, true, false, true) => (0, 2, 3, 1)
  | (true, false, false, true) => (2, 1, 3, 0)
  | (false, true, true, false) => (0, 3, 1, 2)
  | _ => (0, 0, 0, 0)

/-- C3: for a tetrahedron whose vertices have exactly two positive depths
(and two non-positive ones), `cross_section` emits exactly the two triangles
given by the fixed pattern `[(neg1,pos2),(neg1,pos1),(neg2,pos2)]` and
`[(neg1,pos1),(neg2,pos1),(neg2,pos2)]`, with the role assignment
(neg1, neg2, pos1, pos2) drawn from the fixed per-pattern table; the `neg`
roles are on the non-positive side and the `pos` roles on the positive
side. -/
theorem c3_cross_section_two_positive_pattern
    (V P : Type) [Inhabited V] [Inhabited P] (ops : ProjOps V P)
    (v0 v1 v2 v3 : V) (n1 n2 p1 p2 : ℕ)
    (htbl : twoNegativeTable
      (sideOf ops v0, sideOf ops v1, sideOf ops v2, sideOf ops v3) =
        (n1, n2, p1, p2))
    (hcount : countTrue
      (sideOf ops v0, sideOf ops v1, sideOf ops v2, sideOf ops v3) = 2) :
    crossSection ops ⟨[v0, v1, v2, v3], [(0, 1, 2, 3)]⟩ =
      ⟨[projectEdge ops ([v0, v1, v2, v3].getD n1 default)
          ([v0, v1, v2, v3].getD p2 default),
        projectEdge ops ([v0, v1, v2, v3].getD n1 default)
          ([v0, v1, v2, v3].getD p1 default),
        projectEdge ops ([v0, v1, v2, v3].getD n2 default)
          ([v0, v1, v2, v3].getD p2 default),
        projectEdge ops ([v0, v1, v2, v3].getD n2 default)
          ([v0, v1, v2, v3].getD p1 default)],
       [(0, 1, 2), (1, 3, 2)]⟩ ∧
    sideOf ops ([v0, v1, v2, v3].getD n1 default) = false ∧
    sideOf ops ([v0, v1, v2, v3].getD n2 default) = false ∧
    sideOf ops ([v0, v1, v2, v3].getD p1 default) = true ∧
    sideOf ops ([v0, v1, v2, v3].getD p2 default) = true := by
  cases hb0 : sideOf ops v0 <;> cases hb1 : sideOf ops v1 <;>
    cases hb2 : sideOf ops v2 <;> cases hb3 : sideOf ops v3
  · exfalso
    rw [hb0, hb1, hb2, hb3] at hcount
    simp [countTrue] at hcount
  · exfalso
    rw [hb0, hb1, hb2, hb3] at hcount
    simp [countTrue] at hcount
  · exfalso
    rw [hb0, hb1, hb2, hb3] at hcount
    simp [countTrue] at hcount
  · rw [hb0, hb1, hb2, hb3] at htbl
    simp only [twoNegativeTable, Prod.mk.injEq] at htbl
    obtain ⟨rfl, rfl, rfl, rfl⟩ := htbl
    have e0 : decide (0 < ops.orthographicDepth v0) = false := hb0
    have e1 : decide (0 < ops.orthographicDepth v1) = false := hb1
    have e2 : decide (0 < ops.orthographicDepth v2) = true := hb2
    have e3 : decide (0 < ops.orthographicDepth v3) = true := hb3
    have hv0 : ([v0, v1, v2, v3] : List V).getD 0 default = v0 := rfl
    have hv1 : ([v0, v1, v2, v3] : List V).getD 1 default = v1 := rfl
    have hv2 : ([v0, v1, v2, v3] : List V).getD 2 default = v2 := rfl
    have hv3 : ([v0, v1, v2, v3] : List V).getD 3 default = v3 := rfl
    refine ⟨?_, hb0, hb1, hb2, hb3⟩
    unfold crossSection processSimplexes processSimplex
    simp only [tetGet, hv0, hv1, hv2, hv3, e0, e1, e2, e3]
    rfl
  · exfalso
    rw [hb0, hb1, hb2, hb3] at hcount
    simp [countTrue] at hcount
  · rw [hb0, hb1, hb2, hb3] at htbl
    simp only [twoNegativeTable, Prod.mk.injEq] at htbl
    obtain ⟨rfl, rfl, rfl, rfl⟩ := htbl
    have e0 : decide (0 < ops.orthographicDepth v0) = false := hb0
    have e1 : decide (0 < ops.orthographicDepth v1) = true := hb1
    have e2 : decide (0 < ops.orthographicDepth v2) = false := hb2
    have e3 : decide (0 < ops.orthographicDepth v3) = true := hb3
    have hv0 : ([v0, v1, v2, v3] : List V).getD 0 default = v0 := rfl
    have hv1 : ([v0, v1, v2, v3] : List V).getD 1 default = v1 := rfl
    have hv2 : ([v0, v1, v2, v3] : List V).getD 2 default = v2 := rfl
    have hv3 : ([v0, v1, v2, v3] : List V).getD 3 default = v3 := rfl
    refine ⟨?_, hb0, hb2, hb3, hb1⟩
    unfold crossSection processSimplexes processSimplex
    simp only [tetGet, hv0, hv1, hv2, hv3, e0, e1, e2, e3]
    rfl
  · rw [hb0, hb1, hb2, hb3] at htbl
    simp only [twoNegativeTable, Prod.mk.injEq] at htbl
    obtain ⟨rfl, rfl, rfl, rfl⟩ := htbl
    have e0 : decide (0 < ops.orthographicDepth v0) = false := hb0
    have e1 : decide (0 < ops.orthographicDepth v1) = true := hb1
    have e2 : decide (0 < ops.orthographicDepth v2) = true := hb2
    have e3 : decide (0 < ops.orthographicDepth v3) = false := hb3
    have hv0 : ([v0, v1, v2, v3] : List V).getD 0 default = v0 := rfl
    have hv1 : ([v0, v1, v2, v3] : List V).getD 1 default = v1 := rfl
    have hv2 : ([v0, v1, v2, v3] : List V).getD 2 default = v2 := rfl
    have hv3 : ([v0, v1, v2, v3] : List V).getD 3 default = v3 := rfl
    refine ⟨?_, hb0, hb3, hb1, hb2⟩
    unfold crossSection processSimplexes processSimplex
    simp only [tetGet, hv0, hv1, hv2, hv3, e0, e1, e2, e3]
    rfl
  · exfalso
    rw [hb0, hb1, hb2, hb3] at hcount
    simp [countTrue] at hcount
  · exfalso
    rw [hb0, hb1, hb2, hb3] at hcount
    simp [countTrue] at hcount
  · rw [hb0, hb1, hb2, hb3] at htbl
    simp only [twoNegativeTable, Prod.mk.injEq] at htbl
    obtain ⟨rfl, rfl, rfl, rfl⟩ := htbl
    have e0 : decide (0 < ops.orthographicDepth v0) = true := hb0
    have e1 : decide (0 < ops.orthographicDepth v1) = false := hb1
    have e2 : decide (0 < ops.orthographicDepth v2) = false := hb2
    have e3 : decide (0 < ops.orthographicDepth v3) = true := hb3
    have hv0 : ([v0, v1, v2, v3] : List V).getD 0 default = v0 := rfl
    have hv1 : ([v0, v1, v2, v3] : List V).getD 1 default = v1 := rfl
    have hv2 : ([v0, v1, v2, v3] : List V).getD 2 default = v2 := rfl
    have hv3 : ([v0, v1, v2, v3] : List V).getD 3 default = v3 := rfl
    refine ⟨?_, hb2, hb1, hb3, hb0⟩
    unfold crossSection processSimplexes processSimplex
    simp only [tetGet, hv0, hv1, hv2, hv3, e0, e1, e2, e3]
    rfl
  · rw [hb0, hb1, hb2, hb3] at htbl
    simp only [twoNegativeTable, Prod.mk.injEq] at htbl
    obtain ⟨rfl, rfl, rfl, rfl⟩ := htbl
    have e0 : decide (0 < ops.orthographicDepth v0) = true := hb0
    have e1 : decide (0 < ops.orthographicDepth v1) = false := hb1
    have e2 : decide (0 < ops.orthographicDepth v2) = true := hb2
    have e3 : decide (0 < ops.orthographicDepth v3) = false := hb3
    have hv0 : ([v0, v1, v2, v3] : List V).getD 0 default = v0 := rfl
    have hv1 : ([v0, v1, v2, v3] : List V).getD 1 default = v1 := rfl
    have hv2 : ([v0, v1, v2, v3] : List V).getD 2 default = v2 := rfl
    have hv3 : ([v0, v1, v2, v3] : List V).getD 3 default = v3 := rfl
    refine ⟨?_, hb3, hb1, hb0, hb2⟩
    unfold crossSection processSimplexes processSimplex
    simp only [tetGet, hv0, hv1, hv2, hv3, e0, e1, e2, e3]
    rfl
  · exfalso
    rw [hb0, hb1, hb2, hb3] at hcount
    simp [countTrue] at hcount
  · rw [hb0, hb1, hb2, hb3] at htbl
    simp only [twoNegativeTable, Prod.mk.injEq] at htbl
    obtain ⟨rfl, rfl, rfl, rfl⟩ := htbl
    have e0 : decide (0 < ops.orthographicDepth v0) = true := hb0
    have e1 : decide (0 < ops.orthographicDepth v1) = true := hb1
    have e2 : decide (0 < ops.orthographicDepth v2) = false := hb2
    have e3 : decide (0 < ops.orthographicDepth v3) = false := hb3
    have hv0 : ([v0, v1, v2, v3] : List V).getD 0 default = v0 := rfl
    have hv1 : ([v0, v1, v2, v3] : List V).getD 1 default = v1 := rfl
    have hv2 : ([v0, v1, v2, v3] : List V).getD 2 default = v2 := rfl
    have hv3 : ([v0, v1, v2, v3] : List V).getD 3 default = v3 := rfl
    refine ⟨?_, hb3, hb2, hb1, hb0⟩
    unfold crossSection processSimplexes processSimplex
    simp only [tetGet, hv0, hv1, hv2, hv3, e0, e1, e2, e3]
    rfl
  · exfalso
    rw [hb0, hb1, hb2, hb3] at hcount
    simp [countTrue] at hcount
  · exfalso
    rw [hb0, hb1, hb2, hb3] at hcount
    simp [countTrue] at hcount
  · exfalso
    rw [hb0, hb1, hb2, hb3] at hcount
    simp [countTrue] at hcount

/-- Witness for C3 at the concrete two-positive tetrahedron used by the
repository's `two_positive_tests`: vertices (0,0,1), (2,0,1), (0,0,-1),
(0,2,-1); the sign pattern is (true, true, false, false) with role
assignment (3, 2, 1, 0). -/
theorem c3_witness :
    crossSection projOps3
        ⟨[((0 : ℚ), (0 : ℚ), (1 : ℚ)), (2, 0, 1), (0, 0, -1), (0, 2, -1)],
          [(0, 1, 2, 3)]⟩ =
      ⟨[projectEdge projOps3
          ([((0 : ℚ), (0 : ℚ), (1 : ℚ)), (2, 0, 1), (0, 0, -1), (0, 2, -1)].getD 3 default)
          ([((0 : ℚ), (0 : ℚ), (1 : ℚ)), (2, 0, 1), (0, 0, -1), (0, 2, -1)].getD 0 default),
        projectEdge projOps3
          ([((0 : ℚ), (0 : ℚ), (1 : ℚ)), (2, 0, 1), (0, 0, -1), (0, 2, -1)].getD 3 default)
          ([((0 : ℚ), (0 : ℚ), (1 : ℚ)), (2, 0, 1), (0, 0, -1), (0, 2, -1)].getD 1 default),
        projectEdge projOps3
          ([((0 : ℚ), (0 : ℚ), (1 : ℚ)), (2, 0, 1), (0, 0, -1), (0, 2, -1)].getD 2 default)
          ([((0 : ℚ), (0 : ℚ), (1 : ℚ)), (2, 0, 1), (0, 0, -1), (0, 2, -1)].getD 0 default),
        projectEdge projOps3
          ([((0 : ℚ), (0 : ℚ), (1 : ℚ)), (2, 0, 1), (0, 0, -1), (0, 2, -1)].getD 2 default)
          ([((0 : ℚ), (0 : ℚ), (1 : ℚ)), (2, 0, 1), (0, 0, -1), (0, 2, -1)].getD 1 default)],
       [(0, 1, 2), (1, 3, 2)]⟩ ∧
    sideOf projOps3
      ([((0 : ℚ), (0 : ℚ), (1 : ℚ)), (2, 0, 1), (0, 0, -1), (0, 2, -1)].getD 3 default) = false ∧
    sideOf projOps3
      ([((0 : ℚ), (0 : ℚ), (1 : ℚ)), (2, 0, 1), (0, 0, -1), (0, 2, -1)].getD 2 default) = false ∧
    sideOf projOps3
      ([((0 : ℚ), (0 : ℚ), (1 : ℚ)), (2, 0, 1), (0, 0, -1), (0, 2, -1)].getD 1 default) = true ∧
    sideOf projOps3
      ([((0 : ℚ), (0 : ℚ), (1 : ℚ)), (2, 0, 1), (0, 0, -1), (0, 2, -1)].getD 0 default) = true :=
  c3_cross_section_two_positive_pattern Vertex3Q Vertex2Q projOps3
    (0, 0, 1) (2, 0, 1) (0, 0, -1) (0, 2, -1) 3 2 1 0 (by decide) (by decide)

end Tessa4d

namespace Tessa4d

/-! ## Claim C4 -/

/-- C4: `extrude(h)` duplicates every vertex once at depth `+h/2` (the lower
block, unprimed indices) and once at depth `-h/2` (the upper block, primed
indices `+ n`), giving exactly `2n` vertices, and turns every triangle
`(a, b, c)` into the three tetrahedra `(a, c, b, a+n)`, `(c, b, a+n, c+n)`,
`(a+n, b+n, c+n, b)`, giving exactly `3m` tetrahedra. -/
theorem c4_extrude_structure (V W : Type) (lift : V → ℚ → W)
    (m : TriangleMesh V) (height : ℚ) :
    (extrude lift m height).vertices =
        m.vertices.map (fun v => lift v (height / 2)) ++
          m.vertices.map (fun v => lift v (-(height / 2))) ∧
    (extrude lift m height).vertices.length = 2 * m.vertices.length ∧
    (extrude lift m height).simplexes =
        m.simplexes.flatMap (fun face =>
          [(face.1, face.2.2, face.2.1, face.1 + m.vertices.length),
            (face.2.2, face.2.1, face.1 + m.vertices.length,
              face.2.2 + m.vertices.length),
            (face.1 + m.vertices.length, face.2.1 + m.vertices.length,
              face.2.2 + m.vertices.length, face.2.1)]) ∧
    (extrude lift m height).simplexes.length = 3 * m.simplexes.length := by
  refine ⟨rfl, ?_, rfl, ?_⟩
  · simp only [extrude, List.length_append, List.length_map]
    omega
  · show (m.simplexes.flatMap _).length = 3 * m.simplexes.length
    generalize m.simplexes = l
    induction l with
    | nil => simp
    | cons a l ih =>
      simp only [List.flatMap_cons, List.length_append, ih, List.length_cons,
        List.length_nil]
      omega

end Tessa4d

namespace Tessa4d

/-! ## Claim C9: the index-validity invariant -/

/-- The `SimplexMesh` invariant at rank 3: every index in every simplex is
strictly below the number of vertices. -/
def triOk (m : TriangleMesh V) : Prop :=
  ∀ t ∈ m.simplexes, t.1 < m.vertices.length ∧ t.2.1 < m.vertices.length ∧
    t.2.2 < m.vertices.length

/-- The `SimplexMesh` invariant at rank 4. -/
def tetOk (m : TetrahedronMesh V) : Prop :=
  ∀ t ∈ m.simplexes, t.1 < m.vertices.length ∧ t.2.1 < m.vertices.length ∧
    t.2.2.1 < m.vertices.length ∧ t.2.2.2 < m.vertices.length

/-- Invariant of the cross-section memoization state: every memoized index
points into the projected-vertex list built so far. -/
def stateOk (s : CrossSectionState P) : Prop :=
  ∀ kv ∈ s.edgeIndices, kv.2 < s.projectedVertices.length

instance (m : TriangleMesh V) : Decidable (triOk m) :=
  inferInstanceAs (Decidable (∀ t ∈ m.simplexes,
    t.1 < m.vertices.length ∧ t.2.1 < m.vertices.length ∧
      t.2.2 < m.vertices.length))

instance (m : TetrahedronMesh V) : Decidable (tetOk m) :=
  inferInstanceAs (Decidable (∀ t ∈ m.simplexes,
    t.1 < m.vertices.length ∧ t.2.1 < m.vertices.length ∧
      t.2.2.1 < m.vertices.length ∧ t.2.2.2 < m.vertices.length))

theorem lookupEdge_mem {key : ℕ × ℕ} {l : List ((ℕ × ℕ) × ℕ)} {v : ℕ}
    (h : lookupEdge key l = some v) : (key, v) ∈ l := by
  induction l with
  | nil => simp [lookupEdge] at h
  | cons kv rest ih =>
    unfold lookupEdge at h
    by_cases hk : kv.1 = key
    · rw [if_pos hk] at h
      injection h with hv
      subst hk
      subst hv
      exact List.mem_cons_self _ _
    · rw [if_neg hk] at h
      exact List.mem_cons_of_mem _ (ih h)

theorem getIntersection_ok [Inhabited V] (ops : ProjOps V P) (vs : List V)
    (s : CrossSectionState P) (i j : ℕ) (h : stateOk s) :
    stateOk (getIntersection ops vs s i j).1 ∧
    s.projectedVertices.length ≤
      (getIntersection ops vs s i j).1.projectedVertices.length ∧
    (getIntersection ops vs s i j).2 <
      (getIntersection ops vs s i j).1.projectedVertices.length := by
  unfold getIntersection
  rcases hl : lookupEdge (min i j, max i j) s.edgeIndices with _ | k
  · simp only [hl]
    refine ⟨?_, ?_, ?_⟩
    · intro kv hkv
      rcases List.mem_cons.mp hkv with rfl | hkv
      · simp
      · have := h kv hkv
        simp only [List.length_append, List.length_cons, List.length_nil]
        omega
    · simp
    · simp
  · simp only [hl]
    exact ⟨h, le_refl _, h _ (lookupEdge_mem hl)⟩

theorem emitFace_ok [Inhabited V] (ops : ProjOps V P) (vs : List V)
    (simplex : Tet) (s : CrossSectionState P)
    (face : (ℕ × ℕ) × (ℕ × ℕ) × (ℕ × ℕ)) (h : stateOk s) :
    stateOk (emitFace ops vs simplex s face).1 ∧
    s.projectedVertices.length ≤
      (emitFace ops vs simplex s face).1.projectedVertices.length ∧
    (emitFace ops vs simplex s face).2.1 <
      (emitFace ops vs simplex s face).1.projectedVertices.length ∧
    (emitFace ops vs simplex s face).2.2.1 <
      (emitFace ops vs simplex s face).1.projectedVertices.length ∧
    (emitFace ops vs simplex s face).2.2.2 <
      (emitFace ops vs simplex s face).1.projectedVertices.length := by
  obtain ⟨h1, m1, b1⟩ := getIntersection_ok ops vs s
    (tetGet simplex face.1.1) (tetGet simplex face.1.2) h
  obtain ⟨h2, m2, b2⟩ := getIntersection_ok ops vs _
    (tetGet simplex face.2.1.1) (tetGet simplex face.2.1.2) h1
  obtain ⟨h3, m3, b3⟩ := getIntersection_ok ops vs _
    (tetGet simplex face.2.2.1) (tetGet simplex face.2.2.2) h2
  exact ⟨h3, le_trans m1 (le_trans m2 m3),
    lt_of_lt_of_le b1 (le_trans m2 m3), lt_of_lt_of_le b2 m3, b3⟩

theorem emitFaces_ok [Inhabited V] (ops : ProjOps V P) (vs : List V)
    (simplex : Tet) (faces : List ((ℕ × ℕ) × (ℕ × ℕ) × (ℕ × ℕ))) :
    ∀ s : CrossSectionState P, stateOk s →
      stateOk (emitFaces ops vs simplex s faces).1 ∧
      s.projectedVertices.length ≤
        (emitFaces ops vs simplex s faces).1.projectedVertices.length ∧
      ∀ tri ∈ (emitFaces ops vs simplex s faces).2,
        tri.1 < (emitFaces ops vs simplex s faces).1.projectedVertices.length ∧
        tri.2.1 < (emitFaces ops vs simplex s faces).1.projectedVertices.length ∧
        tri.2.2 < (emitFaces ops vs simplex s faces).1.projectedVertices.length := by
  induction faces with
  | nil =>
    intro s h
    refine ⟨h, le_refl _, ?_⟩
    intro tri htri
    simp [emitFaces] at htri
  | cons face rest ih =>
    intro s h
    obtain ⟨hf, mf, bf⟩ := emitFace_ok ops vs simplex s face h
    obtain ⟨hr, mr, br⟩ := ih _ hf
    simp only [emitFaces]
    refine ⟨hr, le_trans mf mr, ?_⟩
    intro tri htri
    rcases List.mem_cons.mp htri with rfl | htri2
    · exact ⟨lt_of_lt_of_le bf.1 mr, lt_of_lt_of_le bf.2.1 mr,
        lt_of_lt_of_le bf.2.2 mr⟩
    · exact br tri htri2

theorem processSimplex_ok [Inhabited V] (ops : ProjOps V P) (vs : List V)
    (s : CrossSectionState P) (simplex : Tet) (h : stateOk s) :
    stateOk (processSimplex ops vs s simplex).1 ∧
    s.projectedVertices.length ≤
      (processSimplex ops vs s simplex).1.projectedVertices.length ∧
    ∀ tri ∈ (processSimplex ops vs s simplex).2,
      tri.1 < (processSimplex ops vs s simplex).1.projectedVertices.length ∧
      tri.2.1 < (processSimplex ops vs s simplex).1.projectedVertices.length ∧
      tri.2.2 < (processSimplex ops vs s simplex).1.projectedVertices.length :=
  emitFaces_ok ops vs simplex _ s h

theorem processSimplexes_ok [Inhabited V] (ops : ProjOps V P) (vs : List V)
    (simplexes : List Tet) :
    ∀ s : CrossSectionState P, stateOk s →
      stateOk (processSimplexes ops vs s simplexes).1 ∧
      s.projectedVertices.length ≤
        (processSimplexes ops vs s simplexes).1.projectedVertices.length ∧
      ∀ tri ∈ (processSimplexes ops vs s simplexes).2,
        tri.1 < (processSimplexes ops vs s simplexes).1.projectedVertices.length ∧
        tri.2.1 < (processSimplexes ops vs s simplexes).1.projectedVertices.length ∧
        tri.2.2 < (processSimplexes ops vs s simplexes).1.projectedVertices.length := by
  induction simplexes with
  | nil =>
    intro s h
    refine ⟨h, le_refl _, ?_⟩
    intro tri htri
    simp [processSimplexes] at htri
  | cons simplex rest ih =>
    intro s h
    obtain ⟨hf, mf, bf⟩ := processSimplex_ok ops vs s simplex h
    obtain ⟨hr, mr, br⟩ := ih _ hf
    simp only [processSimplexes]
    refine ⟨hr, le_trans mf mr, ?_⟩
    intro tri htri
    rcases List.mem_append.mp htri with htri2 | htri2
    · obtain ⟨a1, a2, a3⟩ := bf tri htri2
      exact ⟨lt_of_lt_of_le a1 mr, lt_of_lt_of_le a2 mr, lt_of_lt_of_le a3 mr⟩
    · exact br tri htri2

/-- C9: each of `apply_transform`, `invert`, `join`, `extrude` and
`cross_section` maps meshes satisfying the index-validity invariant (every
simplex index strictly below the vertex count) to meshes satisfying it. -/
theorem c9_operations_preserve_index_validity :
    (∀ (V : Type) (f : V → V) (m : TetrahedronMesh V),
        tetOk m → tetOk (m.applyTransform f)) ∧
    (∀ (V : Type) (m : TetrahedronMesh V), tetOk m → tetOk m.invert) ∧
    (∀ (V : Type) (m o : TetrahedronMesh V),
        tetOk m → tetOk o → tetOk (m.join o)) ∧
    (∀ (V W : Type) (lift : V → ℚ → W) (m : TriangleMesh V) (height : ℚ),
        triOk m → tetOk (extrude lift m height)) ∧
    (∀ (V P : Type) [Inhabited V] (ops : ProjOps V P) (m : TetrahedronMesh V),
        tetOk m → triOk (crossSection ops m)) := by
  refine ⟨?_, ?_, ?_, ?_, ?_⟩
  · intro V f m hm t ht
    have := hm t ht
    simpa [TetrahedronMesh.applyTransform] using this
  · intro V m hm t ht
    obtain ⟨t0, ht0, rfl⟩ := List.mem_map.mp ht
    obtain ⟨a1, a2, a3, a4⟩ := hm t0 ht0
    exact ⟨a2, a1, a3, a4⟩
  · intro V m o hm ho t ht
    simp only [TetrahedronMesh.join, List.length_append]
    rcases List.mem_append.mp ht with ht2 | ht2
    · obtain ⟨a1, a2, a3, a4⟩ := hm t ht2
      exact ⟨by omega, by omega, by omega, by omega⟩
    · obtain ⟨t0, ht0, rfl⟩ := List.mem_map.mp ht2
      obtain ⟨a1, a2, a3, a4⟩ := ho t0 ht0
      refine ⟨?_, ?_, ?_, ?_⟩ <;> dsimp only <;> omega
  · intro V W lift m height hm t ht
    simp only [extrude, List.length_append, List.length_map]
    obtain ⟨face, hface, ht2⟩ := List.mem_flatMap.mp ht
    obtain ⟨a1, a2, a3⟩ := hm face hface
    simp only [List.mem_cons, List.not_mem_nil, or_false] at ht2
    rcases ht2 with rfl | rfl | rfl <;>
      (refine ⟨?_, ?_, ?_, ?_⟩ <;> dsimp only <;> omega)
  · intro V P inst ops m hm
    have hinit : stateOk (⟨[], []⟩ : CrossSectionState P) := by
      intro kv hkv
      simp at hkv
    obtain ⟨hs, hmono, hb⟩ :=
      processSimplexes_ok ops m.vertices m.simplexes ⟨[], []⟩ hinit
    intro t ht
    exact hb t ht

/-- Witness for C9 at small concrete meshes, including the two-positive
cross-section example. -/
theorem c9_witness :
    tetOk (TetrahedronMesh.applyTransform (fun v : Vertex3Q => v)
      ⟨[((0 : ℚ), 0, 1), (1, 0, 0), (0, 1, 0), (0, 0, 2)], [(0, 1, 2, 3)]⟩) ∧
    tetOk (TetrahedronMesh.invert
      (⟨[((0 : ℚ), 0, 1), (1, 0, 0), (0, 1, 0), (0, 0, 2)], [(0, 1, 2, 3)]⟩ :
        TetrahedronMesh Vertex3Q)) ∧
    tetOk (TetrahedronMesh.join
      (⟨[((0 : ℚ), 0, 1), (1, 0, 0)], [(0, 1, 1, 0)]⟩ : TetrahedronMesh Vertex3Q)
      ⟨[(0, 0, 2)], [(0, 0, 0, 0)]⟩) ∧
    tetOk (extrude lift2 ⟨[((0 : ℚ), (0 : ℚ)), (1, 0), (0, 1)], [(0, 1, 2)]⟩ 1) ∧
    triOk (crossSection projOps3
      ⟨[((0 : ℚ), 0, 1), (2, 0, 1), (0, 0, -1), (0, 2, -1)], [(0, 1, 2, 3)]⟩) :=
  ⟨c9_operations_preserve_index_validity.1 _ _ _ (by decide),
    c9_operations_preserve_index_validity.2.1 _ _ (by decide),
    c9_operations_preserve_index_validity.2.2.1 _ _ _ (by decide) (by decide),
    c9_operations_preserve_index_validity.2.2.2.1 _ _ lift2 _ 1 (by decide),
    c9_operations_preserve_index_validity.2.2.2.2 _ _ projOps3 _ (by decide)⟩

end Tessa4d

namespace Tessa4d

/-! ## Real rotor embedding (transform/rotor4.rs)

The `f32` arithmetic of the source is idealized as exact real arithmetic,
so these definitions are noncomputable (they use `Real.sqrt` and branch on
real comparisons). -/

noncomputable section

open Classical

/-- Embeds the module constant `EPSILON = 1e-3`. -/
def EPSILON : ℝ := 1e-3

/-- Embeds `util::approx_equal` at the module tolerance:
`(a - b).abs() < EPSILON`. -/
def approx_equal (a b : ℝ) : Prop := |a - b| < EPSILON

/-- Embeds `Bivec4`: a 4D bivector with one coefficient per basis plane
(the `wy` plane is stored in place of `yw`, as in the source). -/
@[ext]
structure Bivec4 where
  xy : ℝ
  xz : ℝ
  xw : ℝ
  yz : ℝ
  wy : ℝ
  zw : ℝ

/-- Embeds `Bivec4::ZERO`. -/
def Bivec4.ZERO : Bivec4 := ⟨0, 0, 0, 0, 0, 0⟩

/-- Embeds `Bivec4::scaled`. -/
def Bivec4.scaled (b : Bivec4) (scale : ℝ) : Bivec4 :=
  ⟨b.xy * scale, b.xz * scale, b.xw * scale, b.yz * scale, b.wy * scale,
    b.zw * scale⟩

/-- Embeds `Neg for Bivec4`. -/
def Bivec4.neg (b : Bivec4) : Bivec4 :=
  ⟨-b.xy, -b.xz, -b.xw, -b.yz, -b.wy, -b.zw⟩

/-- Embeds `Add for Bivec4`. -/
def Bivec4.add (a b : Bivec4) : Bivec4 :=
  ⟨a.xy + b.xy, a.xz + b.xz, a.xw + b.xw, a.yz + b.yz, a.wy + b.wy,
    a.zw + b.zw⟩

/-- Embeds `ScalarPlusQuadvec4`: a scalar plus a pseudoscalar coefficient. -/
@[ext]
structure ScalarPlusQuadvec4 where
  c : ℝ
  xyzw : ℝ

/-- Embeds `Bivec4::square`: `(-Σ cᵢ², 2·(xy·zw + xz·wy + xw·yz))`. -/
def Bivec4.square (b : Bivec4) : ScalarPlusQuadvec4 :=
  ⟨-(b.xy * b.xy + b.xz * b.xz + b.xw * b.xw + b.yz * b.yz + b.wy * b.wy +
      b.zw * b.zw),
    2 * (b.xy * b.zw + b.xz * b.wy + b.xw * b.yz)⟩

/-- Embeds `Mul<Bivec4> for ScalarPlusQuadvec4` (and through
`Mul<ScalarPlusQuadvec4> for Bivec4`, which delegates to it). -/
def spqMulBivec (s : ScalarPlusQuadvec4) (rhs : Bivec4) : Bivec4 :=
  ⟨s.c * rhs.xy - s.xyzw * rhs.zw,
    s.c * rhs.xz - s.xyzw * rhs.wy,
    s.c * rhs.xw - s.xyzw * rhs.yz,
    s.c * rhs.yz - s.xyzw * rhs.xw,
    s.c * rhs.wy - s.xyzw * rhs.xz,
    s.c * rhs.zw - s.xyzw * rhs.xy⟩

/-- Embeds `Bivec4::wedge`: the quadvector part of the wedge of two
bivectors. -/
def Bivec4.wedge (b other : Bivec4) : ℝ :=
  b.xy * other.zw + b.xz * other.wy + b.xw * other.yz + b.yz * other.xw +
    b.wy * other.xz + b.zw * other.xy

/-- Embeds `SimpleBivec4` (the Rust struct itself places no constraint on
its field; the invariant is maintained by the fallible conversion). -/
@[ext]
structure SimpleBivec4 where
  bivec : Bivec4

/-- Embeds `SimpleBivec4::square`. -/
def SimpleBivec4.square (b : SimpleBivec4) : ℝ := b.bivec.square.c

/-- Embeds `SimpleBivec4::magnitude`: `square().abs().sqrt()`. -/
def SimpleBivec4.magnitude (b : SimpleBivec4) : ℝ := Real.sqrt |b.square|

/-- Embeds `SimpleBivec4::normalized`: the zero bivector stays zero,
otherwise the bivector is scaled by the reciprocal of its magnitude. -/
def SimpleBivec4.normalized (b : SimpleBivec4) : SimpleBivec4 :=
  if b.magnitude = 0 then ⟨Bivec4.ZERO⟩
  else ⟨b.bivec.scaled b.magnitude⁻¹⟩

/-- Embeds `SimpleBivec4::scaled`. -/
def SimpleBivec4.scaled (b : SimpleBivec4) (scale : ℝ) : SimpleBivec4 :=
  ⟨b.bivec.scaled scale⟩

/-- Embeds `Bivec4::force_simple` in its release-build behavior: wrap
without checking (the check-and-panic only exists in test builds). -/
def Bivec4.force_simple (b : Bivec4) : SimpleBivec4 := ⟨b⟩

/-- Embeds `RotorError`. -/
inductive RotorError where
  | NotSimple : Bivec4 → ℝ → RotorError

/-- Embeds `TryFrom<Bivec4> for SimpleBivec4`: succeeds exactly when the
quadvector part of the square is within `EPSILON` of zero. -/
def SimpleBivec4.tryFrom (value : Bivec4) : Except RotorError SimpleBivec4 :=
  if approx_equal value.square.xyzw 0 then Except.ok ⟨value⟩
  else Except.error (RotorError.NotSimple value value.square.xyzw)

/-- Embeds `Bivec4::factor_into_simple_orthogonal`. -/
def Bivec4.factor_into_simple_orthogonal (b : Bivec4) :
    SimpleBivec4 × SimpleBivec4 :=
  let squared := b.square
  let det := Real.sqrt (squared.c * squared.c - squared.xyzw * squared.xyzw)
  if approx_equal |det| 0 then
    (Bivec4.force_simple ⟨b.xy, b.xz, b.xw, 0, 0, 0⟩,
      Bivec4.force_simple ⟨0, 0, 0, b.yz, b.wy, b.zw⟩)
  else
    let factor1 : ScalarPlusQuadvec4 := ⟨-squared.c + det, squared.xyzw⟩
    let factor2 : ScalarPlusQuadvec4 := ⟨squared.c + det, -squared.xyzw⟩
    let scale := 1 / (2 * det)
    (Bivec4.force_simple ((spqMulBivec factor1 b).scaled scale),
      Bivec4.force_simple ((spqMulBivec factor2 b).scaled scale))

/-- Embeds `Rotor4`: scalar, bivector and pseudoscalar parts. -/
@[ext]
structure Rotor4 where
  c : ℝ
  bivec : Bivec4
  xyzw : ℝ

/-- Embeds `Rotor4::IDENTITY`. -/
def Rotor4.IDENTITY : Rotor4 := ⟨1, Bivec4.ZERO, 0⟩

/-- Embeds `Inverse for Rotor4`: negate the bivector part (the reverse of
the rotor). -/
def Rotor4.inverse (r : Rotor4) : Rotor4 := ⟨r.c, r.bivec.neg, r.xyzw⟩

/-- Embeds `Rotor4::normalization_error`: the components of `R·reverse(R)`,
which is `(1, 0)` exactly when the rotor is a unit rotor. -/
def Rotor4.normalization_error (r : Rotor4) : ScalarPlusQuadvec4 :=
  ⟨r.c * r.c + r.xyzw * r.xyzw - r.bivec.square.c,
    2 * r.c * r.xyzw - r.bivec.square.xyzw⟩

/-- Embeds `Rotor4::normalized`: recover `xyzw` from the bivector square
when `c` is not approximately zero, then rescale by the square root of the
error magnitude. -/
def Rotor4.normalized (r : Rotor4) : Rotor4 :=
  let r1 := if ¬ approx_equal r.c 0 then
      { r with xyzw := r.bivec.square.xyzw / (2 * r.c) }
    else r
  let error := r1.normalization_error
  let magnitude := Real.sqrt error.c
  ⟨r1.c / magnitude, r1.bivec.scaled (1 / magnitude), r1.xyzw / magnitude⟩

/-- Embeds the rotor built inside `Compose for Rotor4` before the final
renormalization: the geometric product truncated to grades 0, 2, 4. -/
def Rotor4.compose_raw (a b : Rotor4) : Rotor4 :=
  let a_scalarquadvec_b_bivec := spqMulBivec ⟨a.c, a.xyzw⟩ b.bivec
  let b_scalarquadvec_a_bivec := spqMulBivec ⟨b.c, b.xyzw⟩ a.bivec
  { c := a.c * b.c - a.bivec.xy * b.bivec.xy - a.bivec.xz * b.bivec.xz -
      a.bivec.xw * b.bivec.xw - a.bivec.yz * b.bivec.yz -
      a.bivec.wy * b.bivec.wy - a.bivec.zw * b.bivec.zw + a.xyzw * b.xyzw,
    bivec := (a_scalarquadvec_b_bivec.add b_scalarquadvec_a_bivec).add
      ⟨-(a.bivec.xz * b.bivec.yz) + a.bivec.xw * b.bivec.wy +
          a.bivec.yz * b.bivec.xz - a.bivec.wy * b.bivec.xw,
        a.bivec.xy * b.bivec.yz - a.bivec.xw * b.bivec.zw -
          a.bivec.yz * b.bivec.xy + a.bivec.zw * b.bivec.xw,
        -(a.bivec.xy * b.bivec.wy) + a.bivec.xz * b.bivec.zw +
          a.bivec.wy * b.bivec.xy - a.bivec.zw * b.bivec.xz,
        -(a.bivec.xy * b.bivec.xz) + a.bivec.xz * b.bivec.xy +
          a.bivec.wy * b.bivec.zw - a.bivec.zw * b.bivec.wy,
        a.bivec.xy * b.bivec.xw - a.bivec.xw * b.bivec.xy -
          a.bivec.yz * b.bivec.zw + a.bivec.zw * b.bivec.yz,
        -(a.bivec.xz * b.bivec.xw) + a.bivec.xw * b.bivec.xz +
          a.bivec.yz * b.bivec.wy - a.bivec.wy * b.bivec.yz⟩,
    xyzw := a.c * b.xyzw + a.bivec.xy * b.bivec.zw + a.bivec.xz * b.bivec.wy +
      a.bivec.xw * b.bivec.yz + a.bivec.yz * b.bivec.xw +
      a.bivec.wy * b.bivec.xz + a.bivec.zw * b.bivec.xy + a.xyzw * b.c }

/-- Embeds `Compose for Rotor4`: the truncated geometric product followed
by renormalization. -/
def Rotor4.compose (a b : Rotor4) : Rotor4 := (a.compose_raw b).normalized

/-- Componentwise `approx_equal` on bivectors (the repository's
`bivec_approx_equal` test utility). -/
def bivec_approx_equal (a b : Bivec4) : Prop :=
  approx_equal a.xy b.xy ∧ approx_equal a.xz b.xz ∧ approx_equal a.xw b.xw ∧
    approx_equal a.yz b.yz ∧ approx_equal a.wy b.wy ∧ approx_equal a.zw b.zw

/-- Componentwise `approx_equal` on rotors (the repository's
`rotor_approx_equal` test utility). -/
def rotor_approx_equal (a b : Rotor4) : Prop :=
  approx_equal a.c b.c ∧ bivec_approx_equal a.bivec b.bivec ∧
    approx_equal a.xyzw b.xyzw

end

end Tessa4d

namespace Tessa4d

/-! ## Claim C5 -/

/-- C5: `Bivec4::square` returns
`(-(xy² + xz² + xw² + yz² + wy² + zw²), 2·(xy·zw + xz·wy + xw·yz))`, and its
scalar part is always nonpositive. -/
theorem c5_bivec_square (b : Bivec4) :
    b.square =
      ⟨-(b.xy * b.xy + b.xz * b.xz + b.xw * b.xw + b.yz * b.yz +
          b.wy * b.wy + b.zw * b.zw),
        2 * (b.xy * b.zw + b.xz * b.wy + b.xw * b.yz)⟩ ∧
    b.square.c ≤ 0 := by
  refine ⟨rfl, ?_⟩
  have h1 := mul_self_nonneg b.xy
  have h2 := mul_self_nonneg b.xz
  have h3 := mul_self_nonneg b.xw
  have h4 := mul_self_nonneg b.yz
  have h5 := mul_self_nonneg b.wy
  have h6 := mul_self_nonneg b.zw
  show -(b.xy * b.xy + b.xz * b.xz + b.xw * b.xw + b.yz * b.yz +
      b.wy * b.wy + b.zw * b.zw) ≤ 0
  linarith

/-- C5 has no hypotheses, but this instance records the concrete evaluation
from the repository's `test_bivec_square`. -/
theorem c5_square_example :
    (Bivec4.mk 1 2 4 3 0 0).square = ⟨-30, 24⟩ := by
  unfold Bivec4.square
  norm_num

/-! ## Claim C6 (corrected at the tolerance boundary) -/

/-- C6 counterexample: for the bivector with `xy = 1/2000`, `zw = 1` the
quadvector part of the square is exactly `EPSILON = 1e-3`, which does not
exceed `EPSILON`; the claim therefore predicts `Ok`, but the conversion
returns an error (the code errs whenever `|q| ≥ EPSILON`, not only when
`|q| > EPSILON`). -/
theorem c6_counterexample :
    ¬ EPSILON < |(Bivec4.mk (1 / 2000) 0 0 0 0 1).square.xyzw| ∧
    SimpleBivec4.tryFrom (Bivec4.mk (1 / 2000) 0 0 0 0 1) ≠
      Except.ok ⟨Bivec4.mk (1 / 2000) 0 0 0 0 1⟩ := by
  have hq : (Bivec4.mk (1 / 2000) 0 0 0 0 1).square.xyzw = 1 / 1000 := by
    unfold Bivec4.square
    norm_num
  have habs : |(1 : ℝ) / 1000| = 1 / 1000 := abs_of_nonneg (by norm_num)
  constructor
  · rw [hq, habs]
    unfold EPSILON
    norm_num
  · unfold SimpleBivec4.tryFrom
    rw [if_neg]
    · intro h
      exact Except.noConfusion h
    · unfold approx_equal EPSILON
      rw [hq, sub_zero, habs]
      norm_num

/-- C6 amended: the conversion returns the `NotSimple` error (carrying the
bivector and the offending quadvector value) exactly when the quadvector
part of the square is at least `EPSILON = 1e-3` in magnitude, and otherwise
returns `Ok` wrapping the bivector unchanged; it is total (a recoverable
`Result`, never a panic). -/
theorem c6_try_from_not_simple (value : Bivec4) :
    (EPSILON ≤ |value.square.xyzw| →
      SimpleBivec4.tryFrom value =
        Except.error (RotorError.NotSimple value value.square.xyzw)) ∧
    (|value.square.xyzw| < EPSILON →
      SimpleBivec4.tryFrom value = Except.ok ⟨value⟩) := by
  constructor
  · intro h
    unfold SimpleBivec4.tryFrom
    rw [if_neg]
    unfold approx_equal
    rw [sub_zero]
    exact not_lt.mpr h
  · intro h
    unfold SimpleBivec4.tryFrom
    rw [if_pos]
    unfold approx_equal
    rw [sub_zero]
    exact h

/-- Witness for the amended C6: the zero bivector converts successfully and
the boundary bivector (quadvector part exactly `1e-3`) is rejected. -/
theorem c6_witness :
    SimpleBivec4.tryFrom Bivec4.ZERO = Except.ok ⟨Bivec4.ZERO⟩ ∧
    SimpleBivec4.tryFrom (Bivec4.mk (1 / 2000) 0 0 0 0 1) =
      Except.error (RotorError.NotSimple (Bivec4.mk (1 / 2000) 0 0 0 0 1)
        (Bivec4.mk (1 / 2000) 0 0 0 0 1).square.xyzw) :=
  ⟨(c6_try_from_not_simple Bivec4.ZERO).2
      (by unfold Bivec4.square Bivec4.ZERO EPSILON; norm_num),
    (c6_try_from_not_simple (Bivec4.mk (1 / 2000) 0 0 0 0 1)).1
      (by
        unfold Bivec4.square EPSILON
        rw [show |(2 : ℝ) * (1 / 2000 * 1 + 0 * 0 + 0 * 0)| =
            2 * (1 / 2000 * 1 + 0 * 0 + 0 * 0) from abs_of_nonneg (by norm_num)]
        norm_num)⟩

/-! ## Claim C10 -/

/-- C10: a `SimpleBivec4` has magnitude zero exactly when it is the zero
bivector; `normalized` maps it to the zero bivector in that case (no
division by zero happens), and otherwise scales by the reciprocal of the
magnitude. -/
theorem c10_normalized_zero_safe :
    (∀ b : SimpleBivec4, b.magnitude = 0 → b.bivec = Bivec4.ZERO) ∧
    (∀ b : SimpleBivec4, b.magnitude = 0 → b.normalized = ⟨Bivec4.ZERO⟩) ∧
    (∀ b : SimpleBivec4, b.magnitude ≠ 0 →
      b.normalized = ⟨b.bivec.scaled b.magnitude⁻¹⟩) := by
  refine ⟨?_, ?_, ?_⟩
  · intro b h
    unfold SimpleBivec4.magnitude at h
    have habs : |b.square| = 0 := by
      have := Real.sqrt_eq_zero (abs_nonneg b.square) |>.mp h
      exact this
    have hsq : b.square = 0 := abs_eq_zero.mp habs
    unfold SimpleBivec4.square Bivec4.square at hsq
    have h1 := mul_self_nonneg b.bivec.xy
    have h2 := mul_self_nonneg b.bivec.xz
    have h3 := mul_self_nonneg b.bivec.xw
    have h4 := mul_self_nonneg b.bivec.yz
    have h5 := mul_self_nonneg b.bivec.wy
    have h6 := mul_self_nonneg b.bivec.zw
    have hc : -(b.bivec.xy * b.bivec.xy + b.bivec.xz * b.bivec.xz +
        b.bivec.xw * b.bivec.xw + b.bivec.yz * b.bivec.yz +
        b.bivec.wy * b.bivec.wy + b.bivec.zw * b.bivec.zw) = 0 := hsq
    ext
    · exact mul_self_eq_zero.mp (by linarith)
    · exact mul_self_eq_zero.mp (by linarith)
    · exact mul_self_eq_zero.mp (by linarith)
    · exact mul_self_eq_zero.mp (by linarith)
    · exact mul_self_eq_zero.mp (by linarith)
    · exact mul_self_eq_zero.mp (by linarith)
  · intro b h
    unfold SimpleBivec4.normalized
    rw [if_pos h]
  · intro b h
    unfold SimpleBivec4.normalized
    rw [if_neg h]

/-- Witness for C10: the zero bivector normalizes to zero, and a unit `xy`
bivector (magnitude 1) is scaled by `1⁻¹`. -/
theorem c10_witness :
    SimpleBivec4.normalized ⟨Bivec4.ZERO⟩ = ⟨Bivec4.ZERO⟩ ∧
    SimpleBivec4.normalized ⟨Bivec4.mk 1 0 0 0 0 0⟩ =
      ⟨(Bivec4.mk 1 0 0 0 0 0).scaled
        (SimpleBivec4.magnitude ⟨Bivec4.mk 1 0 0 0 0 0⟩)⁻¹⟩ :=
  ⟨c10_normalized_zero_safe.2.1 ⟨Bivec4.ZERO⟩
      (by
        unfold SimpleBivec4.magnitude SimpleBivec4.square Bivec4.square
          Bivec4.ZERO
        norm_num),
    c10_normalized_zero_safe.2.2 ⟨Bivec4.mk 1 0 0 0 0 0⟩
      (by
        unfold SimpleBivec4.magnitude SimpleBivec4.square Bivec4.square
        norm_num)⟩

end Tessa4d

namespace Tessa4d

/-! ## Claim C2 (corrected: the second factor negates the quadvector) -/

/-- The concrete bivector `xy = 1, zw = 2` used to separate the claim from
the code: its square is `(-5, 4)` and `det = sqrt(25 - 16) = 3`. -/
noncomputable def c2B : Bivec4 := ⟨1, 0, 0, 0, 0, 2⟩

/-- C2 counterexample: at `c2B` the determinant is 3 (not approximately
zero), and the second factor actually returned by
`factor_into_simple_orthogonal` differs (already in its `xy` component) from
the claimed formula `B2 = (B · (c + det, q)) · (1/(2·det))`: the code uses
`(c + det, -q)`. -/
theorem c2_counterexample :
    Real.sqrt (c2B.square.c * c2B.square.c - c2B.square.xyzw * c2B.square.xyzw) = 3 ∧
    ¬ approx_equal |(3 : ℝ)| 0 ∧
    (c2B.factor_into_simple_orthogonal).2.bivec.xy ≠
      ((spqMulBivec ⟨c2B.square.c + 3, c2B.square.xyzw⟩ c2B).scaled
        (1 / (2 * 3))).xy := by
  have hsq : c2B.square = ⟨-5, 4⟩ := by
    unfold c2B Bivec4.square
    simp only [ScalarPlusQuadvec4.mk.injEq]
    norm_num
  have harg : c2B.square.c * c2B.square.c - c2B.square.xyzw * c2B.square.xyzw = 9 := by
    rw [hsq]
    norm_num
  have hdet : Real.sqrt (c2B.square.c * c2B.square.c -
      c2B.square.xyzw * c2B.square.xyzw) = 3 := by
    rw [harg, show (9 : ℝ) = 3 ^ 2 by norm_num,
      Real.sqrt_sq (by norm_num : (0 : ℝ) ≤ 3)]
  have hnapprox : ¬ approx_equal |(3 : ℝ)| 0 := by
    unfold approx_equal EPSILON
    rw [abs_of_nonneg (by norm_num : (0 : ℝ) ≤ 3), sub_zero,
      abs_of_nonneg (by norm_num : (0 : ℝ) ≤ 3)]
    norm_num
  refine ⟨hdet, hnapprox, ?_⟩
  unfold Bivec4.factor_into_simple_orthogonal
  have hcond : ¬ approx_equal
      |Real.sqrt (c2B.square.c * c2B.square.c - c2B.square.xyzw * c2B.square.xyzw)| 0 := by
    rw [hdet]
    exact hnapprox
  rw [if_neg hcond]
  have h9 : Real.sqrt 9 = 3 := by
    rw [show (9 : ℝ) = 3 ^ 2 by norm_num, Real.sqrt_sq (by norm_num : (0 : ℝ) ≤ 3)]
  simp only [hdet, hsq]
  unfold Bivec4.force_simple spqMulBivec Bivec4.scaled c2B
  norm_num
  rw [h9]
  norm_num

/-- C2 amended: with `B.square() = (c, q)` and
`det = sqrt(c² - q²)`: when `det` is not approximately zero,
`factor_into_simple_orthogonal` returns
`B1 = (B·f1)·(1/(2·det))` and `B2 = (B·f2)·(1/(2·det))` with the
`ScalarPlusQuadvec4` factors `f1 = (-c + det, q)` and `f2 = (c + det, -q)`
(the quadvector part of the second factor is negated, unlike the claim's
`(c + det, q)`); when `det` is approximately zero it splits `B` directly
into its {xy, xz, xw} and {yz, wy, zw} components. -/
theorem c2_factor_into_simple_orthogonal (b : Bivec4) :
    (¬ approx_equal
        |Real.sqrt (b.square.c * b.square.c - b.square.xyzw * b.square.xyzw)| 0 →
      b.factor_into_simple_orthogonal =
        (Bivec4.force_simple ((spqMulBivec
            ⟨-b.square.c +
                Real.sqrt (b.square.c * b.square.c - b.square.xyzw * b.square.xyzw),
              b.square.xyzw⟩ b).scaled
          (1 / (2 *
            Real.sqrt (b.square.c * b.square.c - b.square.xyzw * b.square.xyzw)))),
          Bivec4.force_simple ((spqMulBivec
            ⟨b.square.c +
                Real.sqrt (b.square.c * b.square.c - b.square.xyzw * b.square.xyzw),
              -b.square.xyzw⟩ b).scaled
          (1 / (2 *
            Real.sqrt (b.square.c * b.square.c - b.square.xyzw * b.square.xyzw)))))) ∧
    (approx_equal
        |Real.sqrt (b.square.c * b.square.c - b.square.xyzw * b.square.xyzw)| 0 →
      b.factor_into_simple_orthogonal =
        (Bivec4.force_simple ⟨b.xy, b.xz, b.xw, 0, 0, 0⟩,
          Bivec4.force_simple ⟨0, 0, 0, b.yz, b.wy, b.zw⟩)) := by
  constructor
  · intro h
    unfold Bivec4.factor_into_simple_orthogonal
    rw [if_neg h]
  · intro h
    unfold Bivec4.factor_into_simple_orthogonal
    rw [if_pos h]

/-- Witness for the amended C2: the double-rotation bivector `c2B`
(det = 3) takes the general branch and the isoclinic bivector
`xy = 1, zw = 1` (det = 0) takes the direct-split branch. -/
theorem c2_witness :
    c2B.factor_into_simple_orthogonal =
      (Bivec4.force_simple ((spqMulBivec
          ⟨-c2B.square.c +
              Real.sqrt (c2B.square.c * c2B.square.c - c2B.square.xyzw * c2B.square.xyzw),
            c2B.square.xyzw⟩ c2B).scaled
        (1 / (2 *
          Real.sqrt (c2B.square.c * c2B.square.c - c2B.square.xyzw * c2B.square.xyzw)))),
        Bivec4.force_simple ((spqMulBivec
          ⟨c2B.square.c +
              Real.sqrt (c2B.square.c * c2B.square.c - c2B.square.xyzw * c2B.square.xyzw),
            -c2B.square.xyzw⟩ c2B).scaled
        (1 / (2 *
          Real.sqrt (c2B.square.c * c2B.square.c - c2B.square.xyzw * c2B.square.xyzw))))) ∧
    (Bivec4.mk 1 0 0 0 0 1).factor_into_simple_orthogonal =
      (Bivec4.force_simple ⟨1, 0, 0, 0, 0, 0⟩,
        Bivec4.force_simple ⟨0, 0, 0, 0, 0, 1⟩) := by
  constructor
  · apply (c2_factor_into_simple_orthogonal c2B).1
    have harg : c2B.square.c * c2B.square.c - c2B.square.xyzw * c2B.square.xyzw = 9 := by
      unfold c2B Bivec4.square
      norm_num
    rw [harg, show (9 : ℝ) = 3 ^ 2 by norm_num,
      Real.sqrt_sq (by norm_num : (0 : ℝ) ≤ 3)]
    unfold approx_equal EPSILON
    rw [abs_of_nonneg (by norm_num : (0 : ℝ) ≤ 3), sub_zero,
      abs_of_nonneg (by norm_num : (0 : ℝ) ≤ 3)]
    norm_num
  · have h2 := (c2_factor_into_simple_orthogonal (Bivec4.mk 1 0 0 0 0 1)).2
    have harg : (Bivec4.mk 1 0 0 0 0 1).square.c * (Bivec4.mk 1 0 0 0 0 1).square.c -
        (Bivec4.mk 1 0 0 0 0 1).square.xyzw * (Bivec4.mk 1 0 0 0 0 1).square.xyzw = 0 := by
      unfold Bivec4.square
      norm_num
    have hz : Real.sqrt ((Bivec4.mk 1 0 0 0 0 1).square.c * (Bivec4.mk 1 0 0 0 0 1).square.c -
        (Bivec4.mk 1 0 0 0 0 1).square.xyzw * (Bivec4.mk 1 0 0 0 0 1).square.xyzw) = 0 := by
      rw [harg, Real.sqrt_zero]
    have happrox : approx_equal
        |Real.sqrt ((Bivec4.mk 1 0 0 0 0 1).square.c * (Bivec4.mk 1 0 0 0 0 1).square.c -
          (Bivec4.mk 1 0 0 0 0 1).square.xyzw * (Bivec4.mk 1 0 0 0 0 1).square.xyzw)| 0 := by
      rw [hz]
      unfold approx_equal EPSILON
      norm_num
    rw [h2 happrox]

end Tessa4d

namespace Tessa4d

/-! ## Claim C7 -/

/-- The truncated geometric product of a rotor with its inverse (its
reverse) has zero bivector part and computes exactly the rotor's
normalization error; this is a polynomial identity needing no unit
assumption. -/
theorem compose_raw_inverse_right (r : Rotor4) :
    r.compose_raw r.inverse =
      ⟨r.normalization_error.c, Bivec4.ZERO, r.normalization_error.xyzw⟩ := by
  unfold Rotor4.compose_raw Rotor4.inverse Rotor4.normalization_error
    Bivec4.neg spqMulBivec Bivec4.add Bivec4.square Bivec4.ZERO
  ext <;> dsimp only <;> ring

/-- Mirror image of `compose_raw_inverse_right` with the inverse on the
left. -/
theorem compose_raw_inverse_left (r : Rotor4) :
    r.inverse.compose_raw r =
      ⟨r.normalization_error.c, Bivec4.ZERO, r.normalization_error.xyzw⟩ := by
  unfold Rotor4.compose_raw Rotor4.inverse Rotor4.normalization_error
    Bivec4.neg spqMulBivec Bivec4.add Bivec4.square Bivec4.ZERO
  ext <;> dsimp only <;> ring

/-- Renormalizing the identity rotor leaves it unchanged. -/
theorem normalized_identity :
    Rotor4.normalized Rotor4.IDENTITY = Rotor4.IDENTITY := by
  unfold Rotor4.normalized Rotor4.IDENTITY
  have hone : |(1 : ℝ) - 0| = 1 := by norm_num
  have hcond : ¬ approx_equal (1 : ℝ) 0 := by
    unfold approx_equal EPSILON
    rw [hone]
    norm_num
  rw [if_pos hcond]
  unfold Rotor4.normalization_error Bivec4.square Bivec4.ZERO Bivec4.scaled
  ext <;> dsimp only <;> norm_num

/-- Componentwise approximation is reflexive (every component differs from
itself by 0 < EPSILON). -/
theorem rotor_approx_equal_refl (x : Rotor4) : rotor_approx_equal x x := by
  unfold rotor_approx_equal bivec_approx_equal approx_equal EPSILON
  norm_num

/-- C7: for every rotor satisfying the unit-rotor invariant
(`normalization_error = (1, 0)`, which every public constructor and
composition restores), composing with the inverse on either side yields
exactly the identity rotor, hence in particular a rotor componentwise
within 1e-3 of the identity. -/
theorem c7_compose_inverse_is_identity (r : Rotor4)
    (h : r.normalization_error = ⟨1, 0⟩) :
    r.compose r.inverse = Rotor4.IDENTITY ∧
    r.inverse.compose r = Rotor4.IDENTITY ∧
    rotor_approx_equal (r.compose r.inverse) Rotor4.IDENTITY ∧
    rotor_approx_equal (r.inverse.compose r) Rotor4.IDENTITY := by
  have h1 : r.compose r.inverse = Rotor4.IDENTITY := by
    unfold Rotor4.compose
    rw [compose_raw_inverse_right, h]
    exact normalized_identity
  have h2 : r.inverse.compose r = Rotor4.IDENTITY := by
    unfold Rotor4.compose
    rw [compose_raw_inverse_left, h]
    exact normalized_identity
  exact ⟨h1, h2, h1 ▸ rotor_approx_equal_refl _, h2 ▸ rotor_approx_equal_refl _⟩

/-- Witness for C7 at the identity rotor, which satisfies the unit
invariant. -/
theorem c7_witness :
    Rotor4.IDENTITY.compose Rotor4.IDENTITY.inverse = Rotor4.IDENTITY ∧
    Rotor4.IDENTITY.inverse.compose Rotor4.IDENTITY = Rotor4.IDENTITY ∧
    rotor_approx_equal (Rotor4.IDENTITY.compose Rotor4.IDENTITY.inverse)
      Rotor4.IDENTITY ∧
    rotor_approx_equal (Rotor4.IDENTITY.inverse.compose Rotor4.IDENTITY)
      Rotor4.IDENTITY :=
  c7_compose_inverse_is_identity Rotor4.IDENTITY
    (by
      unfold Rotor4.normalization_error Rotor4.IDENTITY Bivec4.square
        Bivec4.ZERO
      simp only [ScalarPlusQuadvec4.mk.injEq]
      norm_num)

end Tessa4d

namespace Tessa4d

/-! ## Rotor transform and affine transform (rotor4.rs, rotate_scale_translate4.rs) -/

noncomputable section

open Classical

/-- A 4-vector over the reals (a glam-style `Vec4`). -/
@[ext]
structure Vec4R where
  x : ℝ
  y : ℝ
  z : ℝ
  w : ℝ

/-- Componentwise vector addition. -/
def Vec4R.add (u v : Vec4R) : Vec4R := ⟨u.x + v.x, u.y + v.y, u.z + v.z, u.w + v.w⟩

/-- Vector-times-scalar multiplication. -/
def Vec4R.smul (v : Vec4R) (s : ℝ) : Vec4R := ⟨v.x * s, v.y * s, v.z * s, v.w * s⟩

/-- A 4x4 matrix stored as four columns, the reading
`Matrix4::from_array` gives the column-major `[[f32; 4]; 4]` produced by
`into_mat4_array` (each inner array of the Rust literal is one column). -/
structure Mat4Cols where
  col0 : Vec4R
  col1 : Vec4R
  col2 : Vec4R
  col3 : Vec4R

/-- Embeds `Rotor4::into_mat4_array` (entries already doubled, as the
source's final in-place `*= 2.0` loop does). -/
def Rotor4.into_mat4_array (r : Rotor4) : Mat4Cols :=
  { col0 := ⟨2 * (1 / 2 - r.bivec.xy * r.bivec.xy - r.bivec.xz * r.bivec.xz -
        r.bivec.xw * r.bivec.xw - r.xyzw * r.xyzw),
      2 * (r.c * r.bivec.xy - r.bivec.xz * r.bivec.yz +
        r.bivec.xw * r.bivec.wy + r.bivec.zw * r.xyzw),
      2 * (r.c * r.bivec.xz + r.bivec.xy * r.bivec.yz -
        r.bivec.xw * r.bivec.zw + r.bivec.wy * r.xyzw),
      2 * (r.c * r.bivec.xw - r.bivec.xy * r.bivec.wy +
        r.bivec.xz * r.bivec.zw + r.bivec.yz * r.xyzw)⟩
    col1 := ⟨2 * (-(r.c * r.bivec.xy) - r.bivec.xz * r.bivec.yz +
        r.bivec.xw * r.bivec.wy - r.bivec.zw * r.xyzw),
      2 * (1 / 2 - r.bivec.xy * r.bivec.xy - r.bivec.yz * r.bivec.yz -
        r.bivec.wy * r.bivec.wy - r.xyzw * r.xyzw),
      2 * (r.c * r.bivec.yz - r.bivec.xy * r.bivec.xz +
        r.bivec.wy * r.bivec.zw + r.bivec.xw * r.xyzw),
      2 * (-(r.c * r.bivec.wy) - r.bivec.xw * r.bivec.xy +
        r.bivec.yz * r.bivec.zw - r.bivec.xz * r.xyzw)⟩
    col2 := ⟨2 * (-(r.c * r.bivec.xz) + r.bivec.xy * r.bivec.yz -
        r.bivec.xw * r.bivec.zw - r.bivec.wy * r.xyzw),
      2 * (-(r.c * r.bivec.yz) - r.bivec.xy * r.bivec.xz +
        r.bivec.wy * r.bivec.zw - r.bivec.xw * r.xyzw),
      2 * (1 / 2 - r.bivec.xz * r.bivec.xz - r.bivec.yz * r.bivec.yz -
        r.bivec.zw * r.bivec.zw - r.xyzw * r.xyzw),
      2 * (r.c * r.bivec.zw - r.bivec.xz * r.bivec.xw +
        r.bivec.yz * r.bivec.wy + r.bivec.xy * r.xyzw)⟩
    col3 := ⟨2 * (-(r.c * r.bivec.xw) - r.bivec.xy * r.bivec.wy +
        r.bivec.xz * r.bivec.zw - r.bivec.yz * r.xyzw),
      2 * (r.c * r.bivec.wy - r.bivec.xy * r.bivec.xw +
        r.bivec.yz * r.bivec.zw + r.bivec.xz * r.xyzw),
      2 * (-(r.c * r.bivec.zw) - r.bivec.xz * r.bivec.xw +
        r.bivec.yz * r.bivec.wy - r.bivec.xy * r.xyzw),
      2 * (1 / 2 - r.bivec.xw * r.bivec.xw - r.bivec.wy * r.bivec.wy -
        r.bivec.zw * r.bivec.zw - r.xyzw * r.xyzw)⟩ }

/-- Matrix-times-vector as glam computes it for a column matrix: the linear
combination of the columns weighted by the vector components. -/
def matVec (m : Mat4Cols) (v : Vec4R) : Vec4R :=
  ⟨m.col0.x * v.x + m.col1.x * v.y + m.col2.x * v.z + m.col3.x * v.w,
    m.col0.y * v.x + m.col1.y * v.y + m.col2.y * v.z + m.col3.y * v.w,
    m.col0.z * v.x + m.col1.z * v.y + m.col2.z * v.z + m.col3.z * v.w,
    m.col0.w * v.x + m.col1.w * v.y + m.col2.w * v.z + m.col3.w * v.w⟩

/-- Embeds `Transform<V> for Rotor4`: convert to a matrix and multiply. -/
def Rotor4.transform (r : Rotor4) (v : Vec4R) : Vec4R :=
  matVec r.into_mat4_array v

/-- Embeds `RotateScaleTranslate4`. -/
structure RotateScaleTranslate4 where
  rotation : Rotor4
  scale : ℝ
  translation : Vec4R

/-- Embeds `Transform for RotateScaleTranslate4`:
`rotate(p) * scale + translation`. -/
def RotateScaleTranslate4.transform (t : RotateScaleTranslate4) (p : Vec4R) :
    Vec4R :=
  Vec4R.add ((t.rotation.transform p).smul t.scale) t.translation

/-- Embeds `RotateScaleTranslate4::rotated`: compose the rotation and rotate
the existing translation. -/
def RotateScaleTranslate4.rotated (t : RotateScaleTranslate4)
    (rotation : Rotor4) : RotateScaleTranslate4 :=
  ⟨t.rotation.compose rotation, t.scale, rotation.transform t.translation⟩

/-- Embeds `RotateScaleTranslate4::scaled`. -/
def RotateScaleTranslate4.scaled (t : RotateScaleTranslate4) (scale : ℝ) :
    RotateScaleTranslate4 :=
  ⟨t.rotation, t.scale * scale, t.translation.smul scale⟩

/-- Embeds `RotateScaleTranslate4::translated`. -/
def RotateScaleTranslate4.translated (t : RotateScaleTranslate4)
    (offs : Vec4R) : RotateScaleTranslate4 :=
  ⟨t.rotation, t.scale, t.translation.add offs⟩

/-! ### Odd part of the Clifford algebra Cl(4,0)

Proof infrastructure for relating `compose` and `transform`: the source's
rotor components are the even part of Cl(4,0) (with the `wy` coefficient
standing for the `e4∧e2` blade), and its `into_mat4_array` is the sandwich
action `reverse(R) · v · R`. The odd elements (vector plus trivector) and
the two mixed products below make that provable by polynomial identities. -/

/-- An odd multivector: a vector (x, y, z, w) plus a trivector with
coefficients on the blades `e2e3e4`, `e1e3e4`, `e1e2e4`, `e1e2e3`. -/
@[ext]
structure OddMV where
  x : ℝ
  y : ℝ
  z : ℝ
  w : ℝ
  tyzw : ℝ
  txzw : ℝ
  txyw : ℝ
  txyz : ℝ

/-- A vector viewed as an odd multivector with zero trivector part. -/
def Vec4R.toOdd (v : Vec4R) : OddMV := ⟨v.x, v.y, v.z, v.w, 0, 0, 0, 0⟩

/-- The vector part of an odd multivector. -/
def OddMV.vec (o : OddMV) : Vec4R := ⟨o.x, o.y, o.z, o.w⟩

/-- The Clifford product (even element) · (odd element) in the source's
component conventions. -/
def evenOddMul (e : Rotor4) (o : OddMV) : OddMV :=
  {
    x := e.c * o.x + e.bivec.xy * o.y + e.bivec.xz * o.z + e.bivec.xw * o.w - e.bivec.yz * o.txyz + e.bivec.wy * o.txyw - e.bivec.zw * o.txzw - e.xyzw * o.tyzw,
    y := e.c * o.y - e.bivec.xy * o.x + e.bivec.xz * o.txyz + e.bivec.xw * o.txyw + e.bivec.yz * o.z - e.bivec.wy * o.w - e.bivec.zw * o.tyzw + e.xyzw * o.txzw,
    z := e.c * o.z - e.bivec.xy * o.txyz - e.bivec.xz * o.x + e.bivec.xw * o.txzw - e.bivec.yz * o.y - e.bivec.wy * o.tyzw + e.bivec.zw * o.w - e.xyzw * o.txyw,
    w := e.c * o.w - e.bivec.xy * o.txyw - e.bivec.xz * o.txzw - e.bivec.xw * o.x - e.bivec.yz * o.tyzw + e.bivec.wy * o.y - e.bivec.zw * o.z + e.xyzw * o.txyz,
    tyzw := e.c * o.tyzw - e.bivec.xy * o.txzw + e.bivec.xz * o.txyw - e.bivec.xw * o.txyz + e.bivec.yz * o.w + e.bivec.wy * o.z + e.bivec.zw * o.y - e.xyzw * o.x,
    txzw := e.c * o.txzw + e.bivec.xy * o.tyzw + e.bivec.xz * o.w - e.bivec.xw * o.z - e.bivec.yz * o.txyw - e.bivec.wy * o.txyz + e.bivec.zw * o.x + e.xyzw * o.y,
    txyw := e.c * o.txyw + e.bivec.xy * o.w - e.bivec.xz * o.tyzw - e.bivec.xw * o.y + e.bivec.yz * o.txzw - e.bivec.wy * o.x - e.bivec.zw * o.txyz - e.xyzw * o.z,
    txyz := e.c * o.txyz + e.bivec.xy * o.z - e.bivec.xz * o.y + e.bivec.xw * o.tyzw + e.bivec.yz * o.x + e.bivec.wy * o.txzw + e.bivec.zw * o.txyw + e.xyzw * o.w }

/-- The Clifford product (odd element) · (even element) in the source's
component conventions. -/
def oddEvenMul (o : OddMV) (e : Rotor4) : OddMV :=
  {
    x := o.x * e.c - o.y * e.bivec.xy - o.z * e.bivec.xz - o.w * e.bivec.xw + o.tyzw * e.xyzw - o.txzw * e.bivec.zw + o.txyw * e.bivec.wy - o.txyz * e.bivec.yz,
    y := o.x * e.bivec.xy + o.y * e.c - o.z * e.bivec.yz + o.w * e.bivec.wy - o.tyzw * e.bivec.zw - o.txzw * e.xyzw + o.txyw * e.bivec.xw + o.txyz * e.bivec.xz,
    z := o.x * e.bivec.xz + o.y * e.bivec.yz + o.z * e.c - o.w * e.bivec.zw - o.tyzw * e.bivec.wy + o.txzw * e.bivec.xw + o.txyw * e.xyzw - o.txyz * e.bivec.xy,
    w := o.x * e.bivec.xw - o.y * e.bivec.wy + o.z * e.bivec.zw + o.w * e.c - o.tyzw * e.bivec.yz - o.txzw * e.bivec.xz - o.txyw * e.bivec.xy - o.txyz * e.xyzw,
    tyzw := o.x * e.xyzw + o.y * e.bivec.zw + o.z * e.bivec.wy + o.w * e.bivec.yz + o.tyzw * e.c + o.txzw * e.bivec.xy - o.txyw * e.bivec.xz + o.txyz * e.bivec.xw,
    txzw := o.x * e.bivec.zw - o.y * e.xyzw - o.z * e.bivec.xw + o.w * e.bivec.xz - o.tyzw * e.bivec.xy + o.txzw * e.c + o.txyw * e.bivec.yz + o.txyz * e.bivec.wy,
    txyw := -o.x * e.bivec.wy - o.y * e.bivec.xw + o.z * e.xyzw + o.w * e.bivec.xy + o.tyzw * e.bivec.xz - o.txzw * e.bivec.yz + o.txyw * e.c + o.txyz * e.bivec.zw,
    txyz := o.x * e.bivec.yz - o.y * e.bivec.xz + o.z * e.bivec.xy - o.w * e.xyzw - o.tyzw * e.bivec.xw - o.txzw * e.bivec.wy - o.txyw * e.bivec.zw + o.txyz * e.c }

/-- The sandwich action `reverse(R) · o · R` (`Rotor4.inverse` is the
reverse). -/
def sandwich (r : Rotor4) (o : OddMV) : OddMV :=
  oddEvenMul (evenOddMul r.inverse o) r

end

end Tessa4d

namespace Tessa4d

/-- The coded rotation matrix acts as the sandwich `reverse(R) · v · R` plus
a correction proportional to the deviation of the rotor from unit
normalization; for a unit rotor the correction vanishes. This is an
unconditional polynomial identity. -/
theorem transform_eq_sandwich (r : Rotor4) (v : Vec4R) :
    r.transform v = Vec4R.add (sandwich r v.toOdd).vec
      (v.smul (1 - r.normalization_error.c)) := by
  unfold Rotor4.transform matVec Rotor4.into_mat4_array sandwich oddEvenMul
    evenOddMul Rotor4.inverse Bivec4.neg OddMV.vec Vec4R.toOdd Vec4R.add
    Vec4R.smul Rotor4.normalization_error Bivec4.square
  ext <;> dsimp only <;> ring

end Tessa4d

namespace Tessa4d

/-- The truncated geometric product of the source is associative (it is the
even-subalgebra Clifford product). -/
theorem compose_raw_assoc (a b c : Rotor4) :
    (a.compose_raw b).compose_raw c = a.compose_raw (b.compose_raw c) := by
  unfold Rotor4.compose_raw spqMulBivec Bivec4.add
  ext <;> dsimp only <;> ring

/-- The reverse (`inverse`) is an antihomomorphism of the truncated
product. -/
theorem inverse_compose_raw (a b : Rotor4) :
    (a.compose_raw b).inverse = b.inverse.compose_raw a.inverse := by
  unfold Rotor4.compose_raw Rotor4.inverse spqMulBivec Bivec4.add Bivec4.neg
  ext <;> dsimp only <;> ring

/-- The identity rotor is a left unit for the truncated product. -/
theorem compose_raw_identity_left (a : Rotor4) :
    Rotor4.IDENTITY.compose_raw a = a := by
  unfold Rotor4.compose_raw Rotor4.IDENTITY spqMulBivec Bivec4.add Bivec4.ZERO
  ext <;> dsimp only <;> ring

/-- Mixed associativity: (even · even) · odd. -/
theorem evenOdd_assoc (a b : Rotor4) (o : OddMV) :
    evenOddMul (a.compose_raw b) o = evenOddMul a (evenOddMul b o) := by
  unfold evenOddMul Rotor4.compose_raw spqMulBivec Bivec4.add
  ext <;> dsimp only <;> ring

/-- Mixed associativity: odd · (even · even). -/
theorem oddEven_assoc (o : OddMV) (a b : Rotor4) :
    oddEvenMul o (a.compose_raw b) = oddEvenMul (oddEvenMul o a) b := by
  unfold oddEvenMul Rotor4.compose_raw spqMulBivec Bivec4.add
  ext <;> dsimp only <;> ring

/-- Mixed associativity: (even · odd) · even. -/
theorem evenOddEven_assoc (a : Rotor4) (o : OddMV) (b : Rotor4) :
    oddEvenMul (evenOddMul a o) b = evenOddMul a (oddEvenMul o b) := by
  unfold oddEvenMul evenOddMul
  ext <;> dsimp only <;> ring

/-- The sandwich of a vector is again a vector: its trivector part
vanishes identically. -/
theorem sandwich_vec_toOdd (r : Rotor4) (v : Vec4R) :
    (sandwich r v.toOdd).vec.toOdd = sandwich r v.toOdd := by
  unfold sandwich oddEvenMul evenOddMul Rotor4.inverse Bivec4.neg OddMV.vec
    Vec4R.toOdd
  ext <;> dsimp only <;> ring

/-- The sandwich action is an antihomomorphism-sandwich: sandwiching with a
product equals sandwiching in sequence. -/
theorem sandwich_compose_raw (a b : Rotor4) (o : OddMV) :
    sandwich (a.compose_raw b) o = sandwich b (sandwich a o) := by
  unfold sandwich
  rw [inverse_compose_raw, evenOdd_assoc, oddEven_assoc, evenOddEven_assoc]

/-- Normalization error is invariant under taking the inverse. -/
theorem normalization_error_inverse (r : Rotor4) :
    r.inverse.normalization_error = r.normalization_error := by
  unfold Rotor4.normalization_error Rotor4.inverse Bivec4.neg Bivec4.square
  ext <;> dsimp only <;> ring

/-- For a unit rotor, the truncated product with the inverse is exactly the
identity rotor. -/
theorem compose_raw_inverse_of_unit (r : Rotor4)
    (h : r.normalization_error = ⟨1, 0⟩) :
    r.compose_raw r.inverse = Rotor4.IDENTITY := by
  rw [compose_raw_inverse_right, h]
  rfl

/-- The truncated product of two unit rotors is a unit rotor. -/
theorem unit_compose_raw (a b : Rotor4)
    (ha : a.normalization_error = ⟨1, 0⟩)
    (hb : b.normalization_error = ⟨1, 0⟩) :
    (a.compose_raw b).normalization_error = ⟨1, 0⟩ := by
  have step : (a.compose_raw b).compose_raw (a.compose_raw b).inverse =
      Rotor4.IDENTITY := by
    rw [inverse_compose_raw, compose_raw_assoc,
      ← compose_raw_assoc b b.inverse a.inverse,
      compose_raw_inverse_of_unit b hb, compose_raw_identity_left]
    exact compose_raw_inverse_of_unit a ha
  have hmain := compose_raw_inverse_right (a.compose_raw b)
  rw [step] at hmain
  have h1 : (a.compose_raw b).normalization_error.c = 1 := by
    have := congrArg Rotor4.c hmain
    simpa [Rotor4.IDENTITY] using this.symm
  have h2 : (a.compose_raw b).normalization_error.xyzw = 0 := by
    have := congrArg Rotor4.xyzw hmain
    simpa [Rotor4.IDENTITY] using this.symm
  exact ScalarPlusQuadvec4.ext h1 h2

/-- Rescaling by the square root of a unit error is the identity
operation. -/
theorem rescale_unit (p : Rotor4) (h : p.normalization_error = ⟨1, 0⟩) :
    (⟨p.c / Real.sqrt p.normalization_error.c,
      p.bivec.scaled (1 / Real.sqrt p.normalization_error.c),
      p.xyzw / Real.sqrt p.normalization_error.c⟩ : Rotor4) = p := by
  rw [h]
  unfold Bivec4.scaled
  ext <;> dsimp only <;> norm_num [Real.sqrt_one]

/-- Renormalizing an exactly-unit rotor leaves it unchanged. -/
theorem normalized_of_unit (p : Rotor4)
    (h : p.normalization_error = ⟨1, 0⟩) : p.normalized = p := by
  unfold Rotor4.normalized
  by_cases hc : approx_equal p.c 0
  · simp only [if_neg (not_not_intro hc)]
    exact rescale_unit p h
  · simp only [if_pos hc]
    have hcne : p.c ≠ 0 := by
      intro h0
      apply hc
      rw [h0]
      unfold approx_equal EPSILON
      norm_num
    have hq : p.bivec.square.xyzw = 2 * p.c * p.xyzw := by
      have := congrArg ScalarPlusQuadvec4.xyzw h
      unfold Rotor4.normalization_error at this
      dsimp only at this
      linarith
    have hdiv : p.bivec.square.xyzw / (2 * p.c) = p.xyzw := by
      rw [hq]
      field_simp
    have hrw : ({ p with xyzw := p.bivec.square.xyzw / (2 * p.c) } : Rotor4) = p := by
      ext <;> dsimp only
      exact hdiv
    rw [hrw, hdiv]
    exact rescale_unit p h

/-- For unit rotors, `compose` is exactly the truncated geometric product. -/
theorem compose_of_unit (a b : Rotor4)
    (ha : a.normalization_error = ⟨1, 0⟩)
    (hb : b.normalization_error = ⟨1, 0⟩) :
    a.compose b = a.compose_raw b := by
  unfold Rotor4.compose
  exact normalized_of_unit _ (unit_compose_raw a b ha hb)

/-- A unit rotor transforms vectors exactly by the sandwich action. -/
theorem transform_of_unit (r : Rotor4)
    (h : r.normalization_error = ⟨1, 0⟩) (v : Vec4R) :
    r.transform v = (sandwich r v.toOdd).vec := by
  rw [transform_eq_sandwich, h]
  unfold Vec4R.add Vec4R.smul
  ext <;> dsimp only <;> ring

/-- Composition of unit rotors corresponds to composition of their vector
actions: `(a ∘ b).transform v = b.transform (a.transform v)` (matching the
repository's `test_rotor_composed_transform_same_as_one_then_other`). -/
theorem transform_compose (a b : Rotor4)
    (ha : a.normalization_error = ⟨1, 0⟩)
    (hb : b.normalization_error = ⟨1, 0⟩) (v : Vec4R) :
    (a.compose b).transform v = b.transform (a.transform v) := by
  rw [compose_of_unit a b ha hb,
    transform_of_unit _ (unit_compose_raw a b ha hb),
    transform_of_unit a ha, transform_of_unit b hb,
    sandwich_vec_toOdd a v, sandwich_compose_raw]

/-- The rotor's matrix action is linear: it maps `u·s + t` to
`(M u)·s + M t`. -/
theorem transform_linear (r : Rotor4) (u t : Vec4R) (s : ℝ) :
    r.transform (Vec4R.add (u.smul s) t) =
      Vec4R.add ((r.transform u).smul s) (r.transform t) := by
  unfold Rotor4.transform matVec Vec4R.add Vec4R.smul
  ext <;> dsimp only <;> ring

end Tessa4d

namespace Tessa4d

/-! ## Claim C8 -/

/-- C8: for a `RotateScaleTranslate4` transform `T` (with unit rotor
components, as all public rotor constructors guarantee):
`T.transform p = T.rotation.transform(p)·scale + translation`;
`T.rotated(r)` acts as `r` applied after `T` (in particular the stored
translation is rotated by `r`); `T.scaled(s)` acts as `T` followed by
scaling by `s`; and `T.translated(t)` acts as `T` followed by adding `t`.
In the exact-arithmetic model the equalities are exact, hence well within
the tolerance introduced by rotor renormalization. -/
theorem c8_rotate_scale_translate_laws (T : RotateScaleTranslate4)
    (r : Rotor4) (s : ℝ) (offs p : Vec4R)
    (hT : T.rotation.normalization_error = ⟨1, 0⟩)
    (hr : r.normalization_error = ⟨1, 0⟩) :
    T.transform p =
      Vec4R.add ((T.rotation.transform p).smul T.scale) T.translation ∧
    (T.rotated r).transform p = r.transform (T.transform p) ∧
    (T.scaled s).transform p = (T.transform p).smul s ∧
    (T.translated offs).transform p = Vec4R.add (T.transform p) offs := by
  refine ⟨rfl, ?_, ?_, ?_⟩
  · unfold RotateScaleTranslate4.rotated RotateScaleTranslate4.transform
    dsimp only
    rw [transform_compose T.rotation r hT hr, transform_linear]
  · unfold RotateScaleTranslate4.transform RotateScaleTranslate4.scaled
    dsimp only
    unfold Vec4R.add Vec4R.smul
    ext <;> dsimp only <;> ring
  · unfold RotateScaleTranslate4.transform RotateScaleTranslate4.translated
    dsimp only
    unfold Vec4R.add
    ext <;> dsimp only <;> ring

/-- A concrete transform for the C8 witness: identity rotation, scale 2,
translation (1, 2, 3, 4). -/
noncomputable def c8T : RotateScaleTranslate4 :=
  ⟨Rotor4.IDENTITY, 2, ⟨1, 2, 3, 4⟩⟩

/-- Witness for C8 at `c8T` and the identity rotor (whose normalization
error is exactly (1, 0)). -/
theorem c8_witness :
    c8T.transform ⟨5, 6, 7, 8⟩ =
      Vec4R.add ((c8T.rotation.transform ⟨5, 6, 7, 8⟩).smul c8T.scale)
        c8T.translation ∧
    (c8T.rotated Rotor4.IDENTITY).transform ⟨5, 6, 7, 8⟩ =
      Rotor4.IDENTITY.transform (c8T.transform ⟨5, 6, 7, 8⟩) ∧
    (c8T.scaled 3).transform ⟨5, 6, 7, 8⟩ =
      (c8T.transform ⟨5, 6, 7, 8⟩).smul 3 ∧
    (c8T.translated ⟨1, 1, 1, 1⟩).transform ⟨5, 6, 7, 8⟩ =
      Vec4R.add (c8T.transform ⟨5, 6, 7, 8⟩) ⟨1, 1, 1, 1⟩ :=
  c8_rotate_scale_translate_laws c8T Rotor4.IDENTITY 3 ⟨1, 1, 1, 1⟩ ⟨5, 6, 7, 8⟩
    (by
      unfold c8T Rotor4.normalization_error Rotor4.IDENTITY Bivec4.square
        Bivec4.ZERO
      simp only [ScalarPlusQuadvec4.mk.injEq]
      norm_num)
    (by
      unfold Rotor4.normalization_error Rotor4.IDENTITY Bivec4.square
        Bivec4.ZERO
      simp only [ScalarPlusQuadvec4.mk.injEq]
      norm_num)

end Tessa4d
